import Mathlib

/-!
# Verification of `shell.Command` (github.com/adasari/go-examples)

The package `shell` launches an external process, scans its standard output and standard error
line by line and returns the collected text.  `Command.Run` and `Command.String` are embedded
below together with the parts of the Go standard library they call:

* `bufio.Scanner` with the default split function `bufio.ScanLines` (package `bufio`, scan.go),
* `strings.Join`,
* `exec.Command`, `Cmd.String`, `Cmd.StdoutPipe`, `Cmd.StderrPipe`, `Cmd.Start` and `Cmd.Wait`
  (package `os/exec`),
* the allocation `make([]byte, n)` of the runtime.

Everything that the operating system decides (whether a pipe can be created, whether the process
starts, the writes of the child in program order, how the reads are chunked, whether the write
ends get closed, the exit status, the capacity of a pipe buffer, the memory that can be
allocated, the result of the executable lookup) is collected in the structures `Host` and
`Process`; every theorem quantifies over them.

A call of `Run` has one of three outcomes: it returns, it panics (the scanner buffer cannot be
allocated), or it never returns (a reader waits for bytes or for the end of a stream that never
come, or the child never exits).  The two reader goroutines share no state.  Each is first run
on everything the child means to write to its stream; `exec.joined` then decides whether both
come to an end: a reader that stopped on an error leaves the rest in the pipe, and a child
whose write no longer fits into that pipe blocks for ever, so that the other stream is never
closed.

A Go `string` / `[]byte` is a `List Char`: one list element stands for one byte.  The code only
ever inspects the two bytes line feed and carriage return.
-/

/-! ## The code and the library functions it calls -/

/-- A Go byte string. -/
abbrev Str := List Char

/-- Final state of a child process as reported by the operating system. -/
inductive ExitStatus where
  | exited (code : Nat)
  | signaled (sig : Nat)
  deriving DecidableEq, Repr

/-- The Go `error` values that can travel through `Command.Run`. -/
inductive GoError where
  /-- The value io.EOF -/
  | EOF
  /-- The value bufio.ErrTooLong -/
  | ErrTooLong
  /-- The value bufio.ErrBadReadCount -/
  | ErrBadReadCount
  /-- The value io.ErrNoProgress -/
  | ErrNoProgress
  /-- A value of type *exec.ExitError -/
  | ExitError (st : ExitStatus)
  /-- A value of type *os.SyscallError returned by os.Pipe inside StdoutPipe or StderrPipe -/
  | PipeError (errno : Nat)
  /-- A value of type *exec.Error, the result of a failed executable lookup -/
  | ExecError (msg : String)
  /-- Any other error of Start (a *fs.PathError of the operation fork/exec and so on) -/
  | StartError (msg : String)
  /-- A value of type *fs.PathError of the operation read, returned by a read of a pipe -/
  | ReadError (errno : Nat)
  deriving DecidableEq, Repr

/-- A Go `int` on a 64-bit platform. -/
structure GoInt where
  val : Int
  lo : -9223372036854775808 ≤ val
  hi : val < 9223372036854775808

/-- The Go `int` that an integer denotes, with wrap-around modulo `2^64`. -/
def GoInt.wrap (i : Int) : GoInt :=
  { val := (i + 9223372036854775808) % 18446744073709551616 - 9223372036854775808
    lo := by omega
    hi := by omega }

namespace strings

/-- Go `strings.Join(elems, sep)`. -/
def Join : List Str → Str → Str
  | [], _ => []
  | [a], _ => a
  | a :: b :: rest, sep => a ++ sep ++ Join (b :: rest) sep

end strings

namespace bufio

/-- Go `bufio.MaxScanTokenSize`. -/
def MaxScanTokenSize : Nat := 64 * 1024

/-- Go `bufio.startBufSize`. -/
def startBufSize : Nat := 4096

/-- Go `bufio.maxConsecutiveEmptyReads`. -/
def maxConsecutiveEmptyReads : Nat := 100

/-- Largest value of a 64-bit Go `int`. -/
def maxInt : Nat := 2 ^ 63 - 1

/-- The read end of a pipe as seen by a reader that is never kept waiting for ever: the bytes
the child means to write to it, the way the stream ends once they are consumed (`none` for the
end of file after the write end is closed, `some errno` for a failing read), and the sizes in
which the operating system hands the bytes over (entry `c` allows up to `c + 1` bytes in that
read; an exhausted list means everything that fits).  Whether the bytes do arrive and the
write end does get closed is decided in `exec.joined`. -/
structure Pipe where
  data : Str
  fail : Option Nat
  chunks : List Nat

/-- The error of the read that ends the stream: `io.EOF`, or the error of a failing read. -/
def Pipe.final (r : Pipe) : GoError :=
  match r.fail with
  | none => GoError.EOF
  | some errno => GoError.ReadError errno

/-- Number of bytes the operating system has ready for the next read of a pipe that still
holds data. -/
def Pipe.avail (r : Pipe) : Nat :=
  match r.chunks with
  | [] => r.data.length
  | c :: _ => min (c + 1) r.data.length

/-- The call `Read(p)` on a pipe with `len(p) = k`: the new pipe state, the bytes stored and the
error.
A read into an empty slice returns `0, nil`; otherwise the read blocks until at least one byte
is available or the stream has ended. -/
def Pipe.Read (r : Pipe) (k : Nat) : Pipe × Str × Option GoError :=
  if k = 0 then (r, [], none)
  else if r.data = [] then (r, [], some r.final)
  else
    let n := min k r.avail
    ({ r with data := r.data.drop n, chunks := r.chunks.tail }, r.data.take n, none)

/-- Go `bytes.IndexByte`, with `none` for -1. -/
def IndexByte : Str → Char → Option Nat
  | [], _ => none
  | b :: bs, c => if b = c then some 0 else (IndexByte bs c).map (· + 1)

/-- Go `bufio.dropCR`. -/
def dropCR (data : Str) : Str :=
  if data.getLast? = some '\r' then data.dropLast else data

/-- Go `bufio.ScanLines`: the number of bytes to advance and the token (`none` for a nil token).
The function never returns an error. -/
def ScanLines (data : Str) (atEOF : Bool) : Nat × Option Str :=
  if atEOF ∧ data.length = 0 then (0, none)
  else
    match IndexByte data '\n' with
    | some i => (i + 1, some (dropCR (data.take i)))
    | none => if atEOF then (data.length, some (dropCR data)) else (0, none)

/-- Go `bufio.Scanner` with `split = ScanLines`.  The byte slice `buf` is represented by its
length `bufLen` and by `held`, the bytes `buf[start:end]`; `end` is `start + len(held)`.
The fields `done`, `empties` and `scanCalled` are left out: they change the behaviour only for a
split function that returns `ErrFinalToken` or a token without advancing, and for a call of
`Buffer` after `Scan`; `ScanLines` and `shell.Scanner` do neither. -/
structure Scanner where
  r : Pipe
  maxTokenSize : Nat
  token : Option Str
  bufLen : Nat
  start : Nat
  held : Str
  err : Option GoError

/-- The field `end` of the Go scanner. -/
def Scanner.endPos (s : Scanner) : Nat := s.start + s.held.length

/-- Go `bufio.NewScanner`. -/
def NewScanner (r : Pipe) : Scanner :=
  { r := r, maxTokenSize := MaxScanTokenSize, token := none, bufLen := 0, start := 0,
    held := [], err := none }

/-- Go `(*Scanner).Buffer(buf, max)` with `cap(buf) = capBuf`. -/
def Scanner.Buffer (s : Scanner) (capBuf max : Nat) : Scanner :=
  { s with bufLen := capBuf, maxTokenSize := max }

/-- Go `(*Scanner).setErr`. -/
def Scanner.setErr (s : Scanner) (e : GoError) : Scanner :=
  if s.err = none ∨ s.err = some GoError.EOF then { s with err := some e } else s

/-- Go `(*Scanner).Err`. -/
def Scanner.Err (s : Scanner) : Option GoError :=
  if s.err = some GoError.EOF then none else s.err

/-- Go `(*Scanner).Text`. -/
def Scanner.Text (s : Scanner) : Str := s.token.getD []

/-- First block of the loop of `Scan`: when bytes are held or an error is recorded, run the split
function, advance, record the token; the flag says that a token was produced (`return true`).
`ScanLines` never advances beyond the bytes it was given and returns no error, so the checks of
`advance` and the error branch have no counterpart. -/
def Scanner.trySplit (s : Scanner) : Scanner × Bool :=
  if 0 < s.held.length ∨ s.err ≠ none then
    match ScanLines s.held (decide (s.err ≠ none)) with
    | (advance, token) =>
      ({ s with start := s.start + advance, held := s.held.drop advance, token := token },
        token.isSome)
  else (s, false)

/-- Shifting the held bytes to the beginning of the buffer. -/
def Scanner.shift (s : Scanner) : Scanner :=
  if 0 < s.start ∧ (s.endPos = s.bufLen ∨ s.bufLen / 2 < s.start) then
    { s with start := 0 }
  else s

/-- Resizing of a full buffer (the caller has excluded the `ErrTooLong` case). -/
def Scanner.grow (s : Scanner) : Scanner :=
  if s.endPos = s.bufLen then
    let newSize := if s.bufLen * 2 = 0 then startBufSize else s.bufLen * 2
    { s with bufLen := min newSize s.maxTokenSize, start := 0 }
  else s

/-- The inner read loop of `Scan`; the first argument counts the reads still allowed before
`io.ErrNoProgress`. -/
def Scanner.readMore : Nat → Scanner → Scanner
  | 0, s => s.setErr GoError.ErrNoProgress
  | rem + 1, s =>
    match s.r.Read (s.bufLen - s.endPos) with
    | (r1, bs, e) =>
      if s.bufLen - s.endPos < bs.length then
        ({ s with r := r1 } : Scanner).setErr GoError.ErrBadReadCount
      else
        let s1 : Scanner := { s with r := r1, held := s.held ++ bs }
        match e with
        | some e1 => s1.setErr e1
        | none => if 0 < bs.length then s1 else Scanner.readMore rem s1

/-- The loop of Go `(*Scanner).Scan`, one unit of fuel per iteration; `none` when the fuel is
used up. -/
def Scanner.scanLoop : Nat → Scanner → Option (Scanner × Bool)
  | 0, _ => none
  | fuel + 1, s =>
    match s.trySplit with
    | (s1, true) => some (s1, true)
    | (s1, false) =>
      if s1.err ≠ none then some ({ s1 with start := 0, held := [] }, false)
      else
        let s2 := s1.shift
        if s2.endPos = s2.bufLen ∧ (s2.maxTokenSize ≤ s2.bufLen ∨ maxInt / 2 < s2.bufLen) then
          some (s2.setErr GoError.ErrTooLong, false)
        else
          Scanner.scanLoop fuel (Scanner.readMore (maxConsecutiveEmptyReads + 1) s2.grow)

/-- Go `(*Scanner).Scan`.  Every iteration that does not return performs a read, and a read
either takes a byte from the pipe or records its final error, so `len(data) + 2` iterations
are enough. -/
def Scanner.Scan (s : Scanner) : Option (Scanner × Bool) :=
  Scanner.scanLoop (s.r.data.length + 2) s

end bufio

namespace shell

/-- Go `shell.Config`. The map `Env` is the list of its entries in iteration order. -/
structure Config where
  Command : Str
  Args : List Str
  WorkingDir : Str
  Env : List (Str × Str)
  OutputMaxLineSize : GoInt

/-- Go `shell.New`; the type `Command` embeds the configuration and nothing else. -/
def New (cfg : Config) : Config := cfg

/-- Go `make([]byte, n)` for `n > 0`: the length of the slice, or `none` when the runtime
panics because it cannot allocate `n` bytes (`maxAlloc` is the largest size it can serve). -/
def makeslice (maxAlloc : Nat) (n : Int) : Option Nat :=
  if n.toNat ≤ maxAlloc then some n.toNat else none

/-- Go `shell.Scanner`: the scanner buffer is set to `maxLineSize` if `maxLineSize > 0`;
`none` when the allocation of the buffer panics. -/
def Scanner (maxAlloc : Nat) (reader : bufio.Pipe) (maxLineSize : Int) : Option bufio.Scanner :=
  let scanner := bufio.NewScanner reader
  if maxLineSize > 0 then
    match makeslice maxAlloc maxLineSize with
    | some capBuf => some (scanner.Buffer capBuf maxLineSize.toNat)
    | none => none
  else some scanner

/-- The loop of Go `shell.readScanner`, one unit of fuel per call of `Scan`. -/
def readLoop : Nat → bufio.Scanner → List Str → Option (bufio.Scanner × List Str)
  | 0, _, _ => none
  | fuel + 1, s, out =>
    match s.Scan with
    | none => none
    | some (s1, true) => readLoop fuel s1 (out ++ [s1.Text])
    | some (s1, false) => some (s1, out)

/-- Go `shell.readScanner`, run on everything the child means to write: the scanner after the
loop and the lines appended to `out`.  Every successful `Scan` consumes at least one byte, so
`len(data) + 1` calls are enough. -/
def readScanner (scanner : bufio.Scanner) (out : List Str) : Option (bufio.Scanner × List Str) :=
  readLoop (scanner.held.length + scanner.r.data.length + 1) scanner out

/-- Go `shell.envVars`. -/
def envVars (cfg : Config) : List Str :=
  cfg.Env.map (fun kv => kv.1 ++ ['='] ++ kv.2)

end shell

namespace exec

/-- The fields of Go `exec.Cmd` used by the package. -/
structure Cmd where
  Path : Str
  Args : List Str
  Dir : Str
  Env : List Str
  Err : Option GoError

/-- What a launched command does.  `stdoutPipeFail`, `stderrPipeFail`: the error number with
which `os.Pipe` fails in `StdoutPipe`, `StderrPipe`.  `startFail`: why the process cannot be
started.  `writes`: the writes of the child in program order, `true` marking stdout and `false`
stderr.  `stdoutFail`, `stderrFail`: a failure of the read that follows the last byte.
`closes`: whether the write ends of both pipes get closed once the child is through its writes
(they stay open while the child or a descendant holds them).  `exit`: the state in which the
child ends, `none` if it never ends. -/
structure Process where
  stdoutPipeFail : Option Nat
  stderrPipeFail : Option Nat
  startFail : Option String
  writes : List (Bool × Str)
  stdoutFail : Option Nat
  stderrFail : Option Nat
  stdoutChunks : List Nat
  stderrChunks : List Nat
  closes : Bool
  exit : Option ExitStatus

/-- What the operating system decides. `lookPath name` is the outcome of `exec.LookPath` for a
name without directory part: `none` when no executable is found, `some (dir, dot)` when it is
found as `dir ++ name`, `dot` telling that the directory is relative (`exec.ErrDot`).
`launch cmd` is the behaviour of the process described by `cmd`, `maxAlloc` the largest slice
the Go runtime can allocate, `pipeCap` the capacity of a pipe buffer. -/
structure Host where
  lookPath : Str → Option (Str × Bool)
  launch : Cmd → Process
  maxAlloc : Nat
  pipeCap : Nat

/-- The bytes the child means to write to one of the streams. -/
def output (fd : Bool) : List (Bool × Str) → Str
  | [] => []
  | (g, bs) :: rest => if g = fd then bs ++ output fd rest else output fd rest

/-- The read end of the stdout pipe. -/
def Process.stdout (p : Process) : bufio.Pipe :=
  { data := output true p.writes, fail := p.stdoutFail, chunks := p.stdoutChunks }

/-- The read end of the stderr pipe. -/
def Process.stderr (p : Process) : bufio.Pipe :=
  { data := output false p.writes, fail := p.stderrFail, chunks := p.stderrChunks }

/-- The test `filepath.Base(name) == name` on a Unix host. -/
def baseIsName (name : Str) : Bool :=
  decide (name = ['/']) || (!name.isEmpty && !name.contains '/')

/-- Go `exec.Command(name, arg...)`. -/
def Command (h : Host) (name : Str) (arg : List Str) : Cmd :=
  let cmd : Cmd := { Path := name, Args := name :: arg, Dir := [], Env := [], Err := none }
  if baseIsName name then
    match h.lookPath name with
    | some (dir, false) => { cmd with Path := dir ++ name }
    | some (dir, true) =>
      { cmd with Path := dir ++ name,
                 Err := some (GoError.ExecError "cannot run executable found relative to current directory") }
    | none => { cmd with Err := some (GoError.ExecError "executable file not found in $PATH") }
  else cmd

/-- Go `(*Cmd).String`. -/
def Cmd.String (c : Cmd) : Str :=
  if c.Err ≠ none then strings.Join c.Args [' ']
  else c.Args.tail.foldl (fun b a => b ++ ' ' :: a) c.Path

/-- Go `(*Cmd).StdoutPipe`, the error only. -/
def StdoutPipe (p : Process) : Option GoError := p.stdoutPipeFail.map GoError.PipeError

/-- Go `(*Cmd).StderrPipe`, the error only. -/
def StderrPipe (p : Process) : Option GoError := p.stderrPipeFail.map GoError.PipeError

/-- Go `(*Cmd).Start`: the error of the lookup when there is one, else that of starting. -/
def Start (cmd : Cmd) (p : Process) : Option GoError :=
  match cmd.Err with
  | some e => some e
  | none => p.startFail.map GoError.StartError

/-- Go `(*Cmd).Wait` for a started command whose pipes have been read to the end: `none` when
the child never ends, so that the call never returns. -/
def Wait (p : Process) : Option (Option GoError) :=
  p.exit.map (fun st => if st = ExitStatus.exited 0 then none else some (GoError.ExitError st))

/-- Whether a reader stopped for a reason other than the end of its stream. -/
def stopped (s : bufio.Scanner) : Bool := decide (s.err ≠ some s.r.final)

/-- The number of bytes the child can put into a pipe in all: no bound while the reader keeps
reading, else what the reader took plus what the pipe buffer holds. -/
def allowance (pipeCap total : Nat) (s : bufio.Scanner) : Option Nat :=
  if stopped s then some (total - s.r.data.length + pipeCap) else none

/-- The child working through its writes: the bytes it has put into the stdout and the stderr
pipe, and whether it got through all of them.  A write that does not fit into a pipe whose
reader has stopped blocks for ever. -/
def childRuns (aOut aErr : Option Nat) : List (Bool × Str) → Nat → Nat → Nat × Nat × Bool
  | [], wo, we => (wo, we, true)
  | (true, bs) :: rest, wo, we =>
    match aOut with
    | some a =>
      if a < wo + bs.length then (a, we, false)
      else childRuns aOut aErr rest (wo + bs.length) we
    | none => childRuns aOut aErr rest (wo + bs.length) we
  | (false, bs) :: rest, wo, we =>
    match aErr with
    | some a =>
      if a < we + bs.length then (wo, a, false)
      else childRuns aOut aErr rest wo (we + bs.length)
    | none => childRuns aOut aErr rest wo (we + bs.length)

/-- Whether one reader comes to an end: a reader that stopped needs the bytes it took to have
been written; a reader that reads to the end of its stream needs the child to get through its
writes and the write end to be closed. -/
def readerEnds (closes through : Bool) (written total : Nat) (s : bufio.Scanner) : Bool :=
  if stopped s then decide (total - s.r.data.length ≤ written) else through && closes

/-- Whether `wg.Wait()` returns: both readers come to an end.  The arguments are the scanners as
`readScanner` leaves them when run on everything the child means to write. -/
def joined (h : Host) (p : Process) (so se : bufio.Scanner) : Bool :=
  let run := childRuns (allowance h.pipeCap p.stdout.data.length so)
    (allowance h.pipeCap p.stderr.data.length se) p.writes 0 0
  readerEnds p.closes run.2.2 run.1 p.stdout.data.length so &&
    readerEnds p.closes run.2.2 run.2.1 p.stderr.data.length se

end exec

namespace shell

/-- The ways a call of `Command.Run` can go. -/
inductive Outcome where
  | returned (stdout stderr : Str) (err : Option GoError)
  | panicked
  | blocked
  deriving DecidableEq

/-- Go `Command.Run`: `none` stands for a loop of the model that ran out of fuel. -/
def Command.Run (c : Config) (h : exec.Host) : Option Outcome :=
  let cmd := exec.Command h c.Command c.Args
  let cmd := { cmd with Dir := c.WorkingDir, Env := envVars c }
  let p := h.launch cmd
  match exec.StdoutPipe p with
  | some err => some (Outcome.returned [] [] (some err))
  | none =>
    match exec.StderrPipe p with
    | some err => some (Outcome.returned [] [] (some err))
    | none =>
      match Scanner h.maxAlloc p.stdout c.OutputMaxLineSize.val,
          Scanner h.maxAlloc p.stderr c.OutputMaxLineSize.val with
      | some stdoutScanner, some stderrScanner =>
        match exec.Start cmd p with
        | some err => some (Outcome.returned [] [] (some err))
        | none =>
          match readScanner stdoutScanner [], readScanner stderrScanner [] with
          | some (stdoutScanner, stdout), some (stderrScanner, stderr) =>
            if exec.joined h p stdoutScanner stderrScanner then
              match stdoutScanner.Err with
              | some err => some (Outcome.returned [] [] (some err))
              | none =>
                match stderrScanner.Err with
                | some err => some (Outcome.returned [] [] (some err))
                | none =>
                  match exec.Wait p with
                  | none => some Outcome.blocked
                  | some (some err) => some (Outcome.returned [] [] (some err))
                  | some none =>
                    some (Outcome.returned (strings.Join stdout ['\n'])
                      (strings.Join stderr ['\n']) none)
            else some Outcome.blocked
          | _, _ => none
      | _, _ => some Outcome.panicked

/-- Go `Command.String`. -/
def Command.String (c : Config) (h : exec.Host) : Str :=
  let cmd := exec.Command h c.Command c.Args
  let cmd := { cmd with Dir := c.WorkingDir, Env := envVars c }
  cmd.String

end shell

/-! ## Definitions used to state and prove the properties -/

namespace bufio

/-- Invariant of the scanner between iterations of the loop of `Scan`. -/
structure Scanner.Inv (s : Scanner) : Prop where
  fits : s.start + s.held.length ≤ s.bufLen
  cap : s.bufLen ≤ s.maxTokenSize
  pos : 0 < s.maxTokenSize
  big : s.bufLen = s.maxTokenSize ∨ s.maxTokenSize ≤ maxInt / 2
  fin : s.err ≠ none →
    s.r.data = [] ∧ s.err = some s.r.final ∧ s.start + s.held.length < s.bufLen

/-- Iterations of the loop of `Scan` that are enough from state `s`. -/
def Scanner.need (s : Scanner) : Nat :=
  if s.err = none then s.r.data.length + 2 else 1

/-- What one call of `Scan` does with the bytes still to come: a token and the rest, or the end
of scanning with the error recorded in the scanner. -/
inductive Step where
  | token (t rest : Str)
  | stop (e : GoError)

/-- The outcome of one call of `Scan` as a function of the token limit, the final error of the
stream and the bytes not yet consumed. -/
def firstStep (max : Nat) (final : GoError) (input : Str) : Step :=
  match IndexByte input '\n' with
  | some i =>
    if i < max then Step.token (dropCR (input.take i)) (input.drop (i + 1))
    else Step.stop GoError.ErrTooLong
  | none =>
    if input = [] then Step.stop final
    else if input.length < max then Step.token (dropCR input) []
    else Step.stop GoError.ErrTooLong

/-- Relation between the scanner before and after a call of `Scan` with result `b`. -/
def Scanner.Post (s s' : Scanner) (b : Bool) : Step → Prop
  | Step.token t rest =>
    b = true ∧ s'.token = some t ∧ s'.held ++ s'.r.data = rest ∧ s'.Inv ∧
      s'.r.final = s.r.final ∧ s'.maxTokenSize = s.maxTokenSize
  | Step.stop e =>
    b = false ∧ s'.err = some e ∧ s'.held ++ s'.r.data = s.held ++ s.r.data ∧
      s'.r.final = s.r.final ∧ (e = GoError.ErrTooLong → s'.held.length = s.maxTokenSize)

/-- The lines of a text: the pieces between line feeds; a last piece that is not terminated by
a line feed counts when it is not empty. -/
def splitLF : Str → List Str
  | [] => []
  | c :: cs =>
    if c = '\n' then [] :: splitLF cs
    else
      match splitLF cs with
      | [] => [[c]]
      | l :: ls => (c :: l) :: ls

/-- The tokens a scanner with token limit `max` delivers for the given lines and the error it
ends with (`final` is the error that ended the stream). -/
def scanLines (max : Nat) (final : GoError) : List Str → List Str × GoError
  | [] => ([], final)
  | l :: ls =>
    if l.length < max then (dropCR l :: (scanLines max final ls).1, (scanLines max final ls).2)
    else ([], GoError.ErrTooLong)

end bufio

namespace shell

/-- The token limit of the scanner returned by `shell.Scanner`. -/
def limit (maxLineSize : Int) : Nat :=
  if maxLineSize > 0 then maxLineSize.toNat else bufio.MaxScanTokenSize

/-- The scanner `shell.Scanner` returns when the allocation of its buffer succeeds. -/
def scannerOf (reader : bufio.Pipe) (maxLineSize : Int) : bufio.Scanner :=
  if maxLineSize > 0 then
    (bufio.NewScanner reader).Buffer maxLineSize.toNat maxLineSize.toNat
  else bufio.NewScanner reader

/-- The scanner as `readScanner` leaves it, run on everything the child means to write. -/
def readEnd (rd : bufio.Pipe) (maxLineSize : Int) : bufio.Scanner :=
  match readScanner (scannerOf rd maxLineSize) [] with
  | some (s, _) => s
  | none => bufio.NewScanner rd

/-- The lines `readScanner` collects from a pipe. -/
def linesRead (rd : bufio.Pipe) (maxLineSize : Int) : List Str :=
  (bufio.scanLines (limit maxLineSize) rd.final (bufio.splitLF rd.data)).1

/-- The value of `scanner.Err()` after `readScanner` has drained a pipe. -/
def readErr (rd : bufio.Pipe) (maxLineSize : Int) : Option GoError :=
  if (bufio.scanLines (limit maxLineSize) rd.final (bufio.splitLF rd.data)).2 = GoError.EOF
  then none
  else some (bufio.scanLines (limit maxLineSize) rd.final (bufio.splitLF rd.data)).2

/-- The command value that `Run` and `String` build from the configuration. -/
def Command.cmd (c : Config) (h : exec.Host) : exec.Cmd :=
  { exec.Command h c.Command c.Args with Dir := c.WorkingDir, Env := envVars c }

/-- The process the host runs for the command that `Run` builds from the configuration. -/
def Command.process (c : Config) (h : exec.Host) : exec.Process :=
  h.launch (Command.cmd c h)

/-- The first error in a list of stage outcomes (`none` is a stage that did not fail). -/
def firstFailure : List (Option GoError) → Option GoError
  | [] => none
  | some e :: _ => some e
  | none :: rest => firstFailure rest

/-- Go `strings.TrimSuffix(text, "\n")`: the text without its trailing line feed. -/
def trimNewline (text : Str) : Str :=
  if text.getLast? = some '\n' then text.dropLast else text

/-- The error of `cmd.Wait()` when the call returns, nil when it does not. -/
def waitErr (p : exec.Process) : Option GoError := (exec.Wait p).getD none

/-- Whether `wg.Wait()` returns in the run of a configuration on a host. -/
def Command.joins (c : Config) (h : exec.Host) : Bool :=
  exec.joined h (Command.process c h)
    (readEnd (Command.process c h).stdout c.OutputMaxLineSize.val)
    (readEnd (Command.process c h).stderr c.OutputMaxLineSize.val)

/-- The outcome of `Run` written with the lines of the two streams. -/
def runResult (c : Config) (h : exec.Host) : Outcome :=
  let p := Command.process c h
  match exec.StdoutPipe p with
  | some err => Outcome.returned [] [] (some err)
  | none =>
    match exec.StderrPipe p with
    | some err => Outcome.returned [] [] (some err)
    | none =>
      if 0 < c.OutputMaxLineSize.val ∧ h.maxAlloc < c.OutputMaxLineSize.val.toNat then
        Outcome.panicked
      else
        match exec.Start (Command.cmd c h) p with
        | some err => Outcome.returned [] [] (some err)
        | none =>
          if Command.joins c h then
            match readErr p.stdout c.OutputMaxLineSize.val with
            | some err => Outcome.returned [] [] (some err)
            | none =>
              match readErr p.stderr c.OutputMaxLineSize.val with
              | some err => Outcome.returned [] [] (some err)
              | none =>
                match exec.Wait p with
                | none => Outcome.blocked
                | some (some err) => Outcome.returned [] [] (some err)
                | some none =>
                  Outcome.returned
                    (strings.Join (linesRead p.stdout c.OutputMaxLineSize.val) ['\n'])
                    (strings.Join (linesRead p.stderr c.OutputMaxLineSize.val) ['\n']) none
          else Outcome.blocked

/-- The stage of `Run` an error value belongs to. -/
inductive Stage where
  | launch
  | read
  | exit
  deriving DecidableEq

/-- The stage that produces an error value: the library uses different kinds of values for the
pipes and the start, for the scanners and the reads, and for the exit of the process. -/
def stageOf : GoError → Stage
  | GoError.PipeError _ => Stage.launch
  | GoError.ExecError _ => Stage.launch
  | GoError.StartError _ => Stage.launch
  | GoError.ExitError _ => Stage.exit
  | _ => Stage.read

/-- The process with its stdout and stderr streams exchanged. -/
def swapProcess (p : exec.Process) : exec.Process :=
  { p with writes := p.writes.map (fun w => (!w.1, w.2)),
           stdoutFail := p.stderrFail, stderrFail := p.stdoutFail,
           stdoutChunks := p.stderrChunks, stderrChunks := p.stdoutChunks }

/-- The host whose processes have their stdout and stderr streams exchanged. -/
def swapStreams (h : exec.Host) : exec.Host :=
  { h with launch := fun cmd => swapProcess (h.launch cmd) }

/-- The six stage outcomes of a run, in the order in which `Run` looks at them. -/
def stages (c : Config) (h : exec.Host) : List (Option GoError) :=
  [exec.StdoutPipe (Command.process c h), exec.StderrPipe (Command.process c h),
    exec.Start (Command.cmd c h) (Command.process c h),
    readErr (Command.process c h).stdout c.OutputMaxLineSize.val,
    readErr (Command.process c h).stderr c.OutputMaxLineSize.val,
    waitErr (Command.process c h)]

end shell

/-! ## Concrete inputs -/

namespace shell

/-- A process that launches, writes `out` to stdout and then `err` to stderr, closes both
streams and ends in state `exit`. -/
def procOf (out err : Str) (exit : ExitStatus) : exec.Process :=
  { stdoutPipeFail := none, stderrPipeFail := none, startFail := none,
    writes := [(true, out), (false, err)], stdoutFail := none, stderrFail := none,
    stdoutChunks := [], stderrChunks := [2, 0], closes := true, exit := some exit }

/-- A Linux host on which executables are found in `/bin/` and every command behaves as `p`:
slices up to `2^48` bytes, pipe buffers of 65536 bytes. -/
def hostOf (p : exec.Process) : exec.Host :=
  { lookPath := fun _ => some ("/bin/".toList, false), launch := fun _ => p,
    maxAlloc := 281474976710656, pipeCap := 65536 }

/-- The configuration built by `try` in `main.go` (`echo 1234`), with `OutputMaxLineSize = n`;
`main.go` leaves the field unset, which is `n = 0`. -/
def cfgEcho (n : Int) : Config :=
  { Command := "echo".toList, Args := ["1234".toList], WorkingDir := [], Env := [],
    OutputMaxLineSize := GoInt.wrap n }

/-- The configuration that runs a shell script: `sh -c script`, with `OutputMaxLineSize = n`. -/
def cfgSh (script : String) (n : Int) : Config :=
  { Command := "sh".toList, Args := ["-c".toList, script.toList], WorkingDir := [], Env := [],
    OutputMaxLineSize := GoInt.wrap n }

end shell

/-! ## The scanner: one call of `Scan`, the loop of `readScanner`, `Run` -/

namespace bufio

theorem IndexByte_eq_none_iff (l : Str) (c : Char) : IndexByte l c = none ↔ c ∉ l := by
  induction l with
  | nil => simp [IndexByte]
  | cons b bs ih =>
    by_cases h : b = c
    · simp [IndexByte, h]
    · have h' : ¬ c = b := fun e => h e.symm
      simp [IndexByte, h, h', ih]

theorem IndexByte_some_spec (l : Str) (c : Char) (i : Nat) (h : IndexByte l c = some i) :
    i < l.length ∧ c ∉ l.take i ∧ l = l.take i ++ c :: l.drop (i + 1) := by
  induction l generalizing i with
  | nil => simp [IndexByte] at h
  | cons b bs ih =>
    by_cases hb : b = c
    · simp [IndexByte, hb] at h
      subst h
      simp [hb]
    · simp only [IndexByte, hb, if_false, Option.map_eq_some'] at h
      obtain ⟨j, hj, rfl⟩ := h
      obtain ⟨h1, h2, h3⟩ := ih j hj
      have h' : ¬ c = b := fun e => hb e.symm
      refine ⟨by simpa using h1, by simpa [h'] using h2, ?_⟩
      simpa using h3

theorem IndexByte_append_of_some (a b : Str) (c : Char) (i : Nat) (h : IndexByte a c = some i) :
    IndexByte (a ++ b) c = some i := by
  induction a generalizing i with
  | nil => simp [IndexByte] at h
  | cons x xs ih =>
    by_cases hx : x = c
    · simpa [IndexByte, hx] using h
    · simp only [IndexByte, hx, if_false, Option.map_eq_some'] at h
      obtain ⟨j, hj, rfl⟩ := h
      simp [IndexByte, hx, ih j hj]

theorem IndexByte_append_of_none (a b : Str) (c : Char) (h : IndexByte a c = none) :
    IndexByte (a ++ b) c = (IndexByte b c).map (· + a.length) := by
  induction a with
  | nil => simp
  | cons x xs ih =>
    by_cases hx : x = c
    · simp [IndexByte, hx] at h
    · simp only [IndexByte, hx, if_false, Option.map_eq_none'] at h
      simp [IndexByte, hx, ih h, Function.comp_def, Nat.add_assoc]

theorem readMore_eof (rem : Nat) (s : Scanner) (hk : s.endPos < s.bufLen) (he : s.err = none)
    (hd : s.r.data = []) :
    Scanner.readMore (rem + 1) s = { s with err := some s.r.final } := by
  have hk' : s.bufLen - s.endPos ≠ 0 := by omega
  simp [Scanner.readMore, Pipe.Read, hk', hd, Scanner.setErr, he]

theorem Pipe.avail_bounds (r : Pipe) (hd : r.data ≠ []) :
    0 < r.avail ∧ r.avail ≤ r.data.length := by
  have hlen : 0 < r.data.length := List.length_pos.mpr hd
  unfold Pipe.avail
  cases r.chunks with
  | nil => exact ⟨hlen, le_refl _⟩
  | cons c cs =>
    simp only
    refine ⟨?_, Nat.min_le_right _ _⟩
    rw [Nat.lt_min]
    omega

theorem readMore_data (rem : Nat) (s : Scanner) (hk : s.endPos < s.bufLen)
    (hd : s.r.data ≠ []) :
    ∃ n, 0 < n ∧ n ≤ s.r.data.length ∧ s.endPos + n ≤ s.bufLen ∧
      Scanner.readMore (rem + 1) s =
        { s with r := { s.r with data := s.r.data.drop n, chunks := s.r.chunks.tail },
                 held := s.held ++ s.r.data.take n } := by
  have hk' : s.bufLen - s.endPos ≠ 0 := by omega
  obtain ⟨ha1, ha2⟩ := Pipe.avail_bounds s.r hd
  generalize hav : s.r.avail = avail at ha1 ha2
  have hm1 : min (s.bufLen - s.endPos) avail ≤ s.bufLen - s.endPos := Nat.min_le_left _ _
  have hm2 : min (s.bufLen - s.endPos) avail ≤ avail := Nat.min_le_right _ _
  have hm3 : 0 < min (s.bufLen - s.endPos) avail := by rw [Nat.lt_min]; omega
  refine ⟨min (s.bufLen - s.endPos) avail, hm3, by omega, by omega, ?_⟩
  generalize hn : min (s.bufLen - s.endPos) avail = n at hm1 hm2 hm3
  have hlt : (s.r.data.take n).length = n := by
    rw [List.length_take]; exact Nat.min_eq_left (by omega)
  have h3 : ¬ s.bufLen - s.endPos < n := by omega
  simp only [Scanner.readMore, Pipe.Read, hk', hd, if_false, hav, hn, hlt, h3, hm3, if_true]

theorem trySplit_token (s : Scanner) (i : Nat) (h : IndexByte s.held '\n' = some i) :
    s.trySplit = ({ s with start := s.start + (i + 1), held := s.held.drop (i + 1),
                           token := some (dropCR (s.held.take i)) }, true) := by
  have hi := (IndexByte_some_spec _ _ _ h).1
  have h0 : s.held ≠ [] := by
    intro e; rw [e] at hi; simp at hi
  have h1 : 0 < s.held.length := by omega
  simp [Scanner.trySplit, ScanLines, h, h0, h1]

theorem trySplit_final (s : Scanner) (he : s.err ≠ none) (h : IndexByte s.held '\n' = none)
    (hh : s.held ≠ []) :
    s.trySplit = ({ s with start := s.start + s.held.length, held := [],
                           token := some (dropCR s.held) }, true) := by
  simp [Scanner.trySplit, ScanLines, h, he, hh]

theorem trySplit_done (s : Scanner) (he : s.err ≠ none) (hh : s.held = []) :
    s.trySplit = ({ s with token := none }, false) := by
  cases s with
  | mk r m t b st held err =>
    simp only at he hh
    subst hh
    simp [Scanner.trySplit, ScanLines, he]

theorem trySplit_more (s : Scanner) (he : s.err = none) (h : IndexByte s.held '\n' = none) :
    ∃ t, s.trySplit = ({ s with token := t }, false) := by
  cases s with
  | mk r m t b st held err =>
    simp only at he h
    subst he
    by_cases hh : held = []
    · subst hh
      exact ⟨t, by simp [Scanner.trySplit]⟩
    · have h1 : 0 < held.length := List.length_pos.mpr hh
      exact ⟨none, by simp [Scanner.trySplit, ScanLines, h, h1]⟩

theorem shift_facts (s : Scanner) :
    s.shift.r = s.r ∧ s.shift.held = s.held ∧ s.shift.err = s.err ∧
      s.shift.maxTokenSize = s.maxTokenSize ∧ s.shift.bufLen = s.bufLen ∧
      s.shift.start ≤ s.start ∧
      (s.shift.start + s.held.length = s.bufLen → s.shift.start = 0) := by
  unfold Scanner.shift
  split
  · simp
  · rename_i h
    simp only [Scanner.endPos, not_and, not_or] at h
    refine ⟨rfl, rfl, rfl, rfl, rfl, le_refl _, ?_⟩
    intro h1
    by_contra h2
    exact (h (by omega)).1 h1

theorem grow_facts (s : Scanner) (hfit : s.start + s.held.length ≤ s.bufLen)
    (hfull : s.start + s.held.length = s.bufLen → s.start = 0)
    (hl : s.held.length < s.maxTokenSize) (hcap : s.bufLen ≤ s.maxTokenSize)
    (hbig : s.bufLen = s.maxTokenSize ∨ s.maxTokenSize ≤ maxInt / 2) :
    s.grow.r = s.r ∧ s.grow.held = s.held ∧ s.grow.err = s.err ∧
      s.grow.maxTokenSize = s.maxTokenSize ∧
      s.grow.start + s.held.length < s.grow.bufLen ∧ s.grow.bufLen ≤ s.maxTokenSize ∧
      (s.grow.bufLen = s.maxTokenSize ∨ s.maxTokenSize ≤ maxInt / 2) := by
  unfold Scanner.grow
  split
  · rename_i h
    simp only [Scanner.endPos] at h
    have h0 := hfull h
    have hlt : s.bufLen < s.maxTokenSize := by omega
    have hb : s.maxTokenSize ≤ maxInt / 2 := by
      rcases hbig with hb | hb
      · omega
      · exact hb
    refine ⟨rfl, rfl, rfl, rfl, ?_, ?_, Or.inr hb⟩
    · simp only [Nat.zero_add, startBufSize]
      rw [Nat.lt_min]
      refine ⟨?_, by omega⟩
      split <;> omega
    · exact Nat.min_le_right _ _
  · rename_i h
    simp only [Scanner.endPos] at h
    exact ⟨rfl, rfl, rfl, rfl, by omega, hcap, hbig⟩

theorem refill_spec (s : Scanner) (hI : s.Inv) (he : s.err = none)
    (hl : s.held.length < s.maxTokenSize) :
    ¬ (s.shift.endPos = s.shift.bufLen ∧
        (s.shift.maxTokenSize ≤ s.shift.bufLen ∨ maxInt / 2 < s.shift.bufLen)) ∧
    ∃ s', Scanner.readMore (maxConsecutiveEmptyReads + 1) s.shift.grow = s' ∧ s'.Inv ∧
      s'.maxTokenSize = s.maxTokenSize ∧ s'.r.final = s.r.final ∧
      s'.held ++ s'.r.data = s.held ++ s.r.data ∧
      (s.r.data = [] → s'.err = some s.r.final) ∧
      (s.r.data ≠ [] → s'.err = none ∧ s'.r.data.length < s.r.data.length) := by
  obtain ⟨sr, sh, se, sm, sb, _, sfull⟩ := shift_facts s
  have hfit := hI.fits
  have hcap := hI.cap
  have hbig := hI.big
  have gf := grow_facts s.shift (by rw [sh, sb]; omega) (by rw [sh, sb]; exact sfull)
    (by rw [sh, sm]; exact hl) (by rw [sb, sm]; exact hcap) (by rw [sb, sm]; exact hbig)
  rw [sh, sm, sr, se] at gf
  obtain ⟨gr, gh, ge, gm, glt, gcap, gbig⟩ := gf
  constructor
  · rintro ⟨h1, h2⟩
    simp only [Scanner.endPos, sh, sb, sm] at h1 h2
    have h0 := sfull h1
    rcases h2 with h2 | h2
    · omega
    · rcases hbig with hb | hb <;> omega
  · have hk : s.shift.grow.endPos < s.shift.grow.bufLen := by
      simp only [Scanner.endPos, gh]; exact glt
    by_cases hd : s.r.data = []
    · refine ⟨_, rfl, ?_, ?_, ?_, ?_, ?_, ?_⟩
      · rw [readMore_eof _ _ hk (by rw [ge]; exact he) (by rw [gr]; exact hd)]
        refine ⟨?_, ?_, ?_, ?_, ?_⟩
        · simp only [gh]; omega
        · simp only [gm]; exact gcap
        · simp only [gm]; exact hI.pos
        · simp only [gm]; exact gbig
        · intro _
          simp only [gh, gr]
          exact ⟨hd, trivial, glt⟩
      · rw [readMore_eof _ _ hk (by rw [ge]; exact he) (by rw [gr]; exact hd)]
        exact gm
      · rw [readMore_eof _ _ hk (by rw [ge]; exact he) (by rw [gr]; exact hd)]
        simp only [gr]
      · rw [readMore_eof _ _ hk (by rw [ge]; exact he) (by rw [gr]; exact hd)]
        simp only [gr, gh]
      · intro _
        rw [readMore_eof _ _ hk (by rw [ge]; exact he) (by rw [gr]; exact hd)]
        simp only [gr]
      · intro h; exact absurd hd h
    · obtain ⟨n, hn0, hn1, hn2, hrm⟩ :=
        readMore_data maxConsecutiveEmptyReads s.shift.grow hk (by rw [gr]; exact hd)
      rw [gr] at hn1
      simp only [Scanner.endPos, gh] at hn2
      refine ⟨_, rfl, ?_, ?_, ?_, ?_, ?_, ?_⟩
      · rw [hrm]
        refine ⟨?_, ?_, ?_, ?_, ?_⟩
        · simp only [gh, gr, List.length_append, List.length_take]
          have := Nat.min_le_left n s.r.data.length
          omega
        · simp only [gm]; exact gcap
        · simp only [gm]; exact hI.pos
        · simp only [gm]; exact gbig
        · intro h
          simp only [ge] at h
          exact absurd he h
      · rw [hrm]; exact gm
      · rw [hrm]; simp only [gr, Pipe.final]
      · rw [hrm]; simp only [gr, gh, List.append_assoc, List.take_append_drop]
      · intro h; exact absurd h hd
      · intro _
        rw [hrm]
        simp only [ge, gr, List.length_drop]
        exact ⟨he, by omega⟩

theorem Pipe.final_ne_tooLong (r : Pipe) : r.final ≠ GoError.ErrTooLong := by
  unfold Pipe.final
  cases r.fail <;> simp

theorem Post_congr (s1 s2 s' : Scanner) (b : Bool) (st : Step)
    (hf : s1.r.final = s2.r.final) (hm : s1.maxTokenSize = s2.maxTokenSize)
    (hin : s1.held ++ s1.r.data = s2.held ++ s2.r.data)
    (h : s1.Post s' b st) : s2.Post s' b st := by
  cases st with
  | token t rest =>
    simp only [Scanner.Post] at h ⊢
    rw [← hf, ← hm]; exact h
  | stop e =>
    simp only [Scanner.Post] at h ⊢
    rw [← hf, ← hm, ← hin]; exact h

theorem scanLoop_spec : ∀ (fuel : Nat) (s : Scanner), s.Inv → s.need ≤ fuel →
    ∃ s' b, s.scanLoop fuel = some (s', b) ∧
      s.Post s' b (firstStep s.maxTokenSize s.r.final (s.held ++ s.r.data)) := by
  intro fuel
  induction fuel with
  | zero =>
    intro s _ hn
    unfold Scanner.need at hn
    split at hn <;> omega
  | succ fuel ih =>
    intro s hI hn
    have hfit := hI.fits
    have hcap := hI.cap
    cases hix : IndexByte s.held '\n' with
    | some i =>
      have hsp := IndexByte_some_spec _ _ _ hix
      have hix' := IndexByte_append_of_some s.held s.r.data _ i hix
      have hlt : i < s.maxTokenSize := by omega
      refine ⟨_, true, by simp only [Scanner.scanLoop, trySplit_token s i hix]; rfl, ?_⟩
      simp only [firstStep, hix', hlt, if_true, Scanner.Post]
      refine ⟨trivial, ?_, ?_, ?_, trivial, trivial⟩
      · rw [List.take_append_of_le_length (by omega)]
      · rw [List.drop_append_of_le_length (by omega)]
      · refine ⟨?_, hcap, hI.pos, hI.big, ?_⟩
        · simp only [List.length_drop]; omega
        · intro h
          obtain ⟨h1, h2, h3⟩ := hI.fin h
          refine ⟨h1, h2, ?_⟩
          simp only [List.length_drop]; omega
    | none =>
      by_cases he : s.err = none
      · obtain ⟨t, ht⟩ := trySplit_more s he hix
        by_cases hl : s.held.length < s.maxTokenSize
        · have hI1 : ({ s with token := t } : Scanner).Inv :=
            ⟨hI.fits, hI.cap, hI.pos, hI.big, hI.fin⟩
          obtain ⟨hne, s', hs', hI', hm', hf', hin', heof', hdat'⟩ :=
            refill_spec { s with token := t } hI1 he hl
          have hneed : s'.need ≤ fuel := by
            unfold Scanner.need at hn ⊢
            rw [if_pos he] at hn
            by_cases hd : s.r.data = []
            · have := heof' hd
              rw [if_neg (by rw [this]; simp)]
              omega
            · obtain ⟨h1, h2⟩ := hdat' hd
              rw [if_pos h1]
              simp only at h2
              omega
          obtain ⟨s'', b, h1, h2⟩ := ih s' hI' hneed
          refine ⟨s'', b, ?_, ?_⟩
          · simp only [Scanner.scanLoop, ht]
            rw [if_neg (by simpa using he), if_neg hne, hs']
            exact h1
          · rw [hm', hf', hin'] at h2
            exact Post_congr s' s s'' b _ hf' hm' hin' h2
        · have hlen : s.held.length = s.maxTokenSize := by omega
          have hst : s.start = 0 := by omega
          have hbl : s.bufLen = s.maxTokenSize := by omega
          have hshift : ({ s with token := t } : Scanner).shift = { s with token := t } := by
            simp [Scanner.shift, hst]
          refine ⟨({ s with token := t } : Scanner).setErr GoError.ErrTooLong, false, ?_, ?_⟩
          · simp only [Scanner.scanLoop, ht]
            rw [if_neg (by simpa using he), hshift,
              if_pos (by simp [Scanner.endPos, hst, hlen, hbl])]
          · have hpos := hI.pos
            have hne : s.held ≠ [] := by
              intro e; rw [e] at hlen; simp at hlen; omega
            rw [firstStep, IndexByte_append_of_none _ _ _ hix]
            cases IndexByte s.r.data '\n' with
            | none =>
              simp [Scanner.Post, Scanner.setErr, he, hne, hlen]
            | some j =>
              simp [Scanner.Post, Scanner.setErr, he, hlen]
      · obtain ⟨hd, hef, hlt⟩ := hI.fin he
        by_cases hh : s.held = []
        · refine ⟨{ s with token := none, start := 0, held := [] }, false, ?_, ?_⟩
          · simp only [Scanner.scanLoop, trySplit_done s he hh]
            rw [if_pos (by simpa using he)]
          · have hft := Pipe.final_ne_tooLong s.r
            simp [firstStep, hh, hd, IndexByte, Scanner.Post, hef, hft]
        · refine ⟨_, true, by simp only [Scanner.scanLoop, trySplit_final s he hix hh]; rfl, ?_⟩
          have hl : s.held.length < s.maxTokenSize := by omega
          simp only [firstStep, hd, List.append_nil, hix, hh, if_false, hl, if_true,
            Scanner.Post]
          refine ⟨trivial, trivial, by simp [hd], ?_, trivial, trivial⟩
          exact ⟨by simp only [List.length_nil]; omega, hcap, hI.pos, hI.big,
            fun _ => ⟨hd, hef, by simp only [List.length_nil]; omega⟩⟩

theorem splitLF_of_index (input : Str) (i : Nat) (h : IndexByte input '\n' = some i) :
    splitLF input = input.take i :: splitLF (input.drop (i + 1)) := by
  induction input generalizing i with
  | nil => simp [IndexByte] at h
  | cons c cs ih =>
    by_cases hc : c = '\n'
    · simp [IndexByte, hc] at h
      subst h
      simp [splitLF, hc]
    · simp only [IndexByte, hc, if_false, Option.map_eq_some'] at h
      obtain ⟨j, hj, rfl⟩ := h
      simp [splitLF, hc, ih j hj]

theorem splitLF_of_none (input : Str) (h : IndexByte input '\n' = none) (hne : input ≠ []) :
    splitLF input = [input] := by
  induction input with
  | nil => exact absurd rfl hne
  | cons c cs ih =>
    by_cases hc : c = '\n'
    · simp [IndexByte, hc] at h
    · simp only [IndexByte, hc, if_false, Option.map_eq_none'] at h
      by_cases hcs : cs = []
      · subst hcs
        simp [splitLF, hc]
      · simp [splitLF, hc, ih h hcs]

end bufio

namespace shell

open bufio in
theorem readLoop_spec : ∀ (fuel : Nat) (s : bufio.Scanner) (out : List Str), s.Inv →
    s.held.length + s.r.data.length + 1 ≤ fuel →
    ∃ s', readLoop fuel s out =
        some (s', out ++ (scanLines s.maxTokenSize s.r.final (splitLF (s.held ++ s.r.data))).1) ∧
      s'.err = some (scanLines s.maxTokenSize s.r.final (splitLF (s.held ++ s.r.data))).2 ∧
      s'.r.final = s.r.final := by
  intro fuel
  induction fuel with
  | zero => intro s out _ h; omega
  | succ fuel ih =>
    intro s out hI hf
    have hneed : s.need ≤ s.r.data.length + 2 := by
      unfold Scanner.need; split <;> omega
    obtain ⟨s1, b, hscan, hpost⟩ := scanLoop_spec (s.r.data.length + 2) s hI hneed
    have hS : s.Scan = some (s1, b) := hscan
    cases hix : IndexByte (s.held ++ s.r.data) '\n' with
    | some i =>
      have hsp := IndexByte_some_spec _ _ _ hix
      have hlen : (List.take i (s.held ++ s.r.data)).length = i := by
        rw [List.length_take]; exact Nat.min_eq_left (by omega)
      rw [splitLF_of_index _ i hix]
      by_cases hlt : i < s.maxTokenSize
      · simp only [firstStep, hix, hlt, if_true, Scanner.Post] at hpost
        obtain ⟨hb, htok, hrest, hI1, hfin1, hmax1⟩ := hpost
        subst hb
        have hf1 : s1.held.length + s1.r.data.length + 1 ≤ fuel := by
          have h1 : (s1.held ++ s1.r.data).length = (s.held ++ s.r.data).length - (i + 1) := by
            rw [hrest, List.length_drop]
          simp only [List.length_append] at h1 hsp
          omega
        obtain ⟨s', h1, h2, h3⟩ := ih s1 (out ++ [s1.Text]) hI1 hf1
        rw [hfin1] at h3
        rw [hfin1, hmax1, hrest] at h1 h2
        have hText : s1.Text = dropCR (List.take i (s.held ++ s.r.data)) := by
          simp only [Scanner.Text, htok, Option.getD_some]
        rw [hText] at h1
        refine ⟨s', ?_, ?_, h3⟩
        · simp only [readLoop, hS, hText]
          rw [h1]
          simp only [scanLines, hlen, hlt, if_true, List.append_assoc, List.singleton_append]
        · simp only [scanLines, hlen, hlt, if_true]
          exact h2
      · simp only [firstStep, hix, hlt, if_false, Scanner.Post] at hpost
        obtain ⟨hb, herr⟩ := hpost
        subst hb
        refine ⟨s1, ?_, ?_, herr.2.2.1⟩
        · simp only [readLoop, hS, scanLines, hlen, hlt, if_false, List.append_nil]
        · simp only [scanLines, hlen, hlt, if_false]
          exact herr.1
    | none =>
      by_cases hne : s.held ++ s.r.data = []
      · simp only [firstStep, hix, hne, if_true, Scanner.Post] at hpost
        obtain ⟨hb, herr⟩ := hpost
        subst hb
        refine ⟨s1, ?_, ?_, herr.2.2.1⟩
        · simp only [readLoop, hS, hne, splitLF, scanLines, List.append_nil]
        · simp only [hne, splitLF, scanLines]
          exact herr.1
      · rw [splitLF_of_none _ hix hne]
        by_cases hlt : (s.held ++ s.r.data).length < s.maxTokenSize
        · simp only [firstStep, hix, hne, if_false, hlt, if_true, Scanner.Post] at hpost
          obtain ⟨hb, htok, hrest, hI1, hfin1, hmax1⟩ := hpost
          subst hb
          have hf1 : s1.held.length + s1.r.data.length + 1 ≤ fuel := by
            have h1 : (s1.held ++ s1.r.data).length = 0 := by rw [hrest]; rfl
            have h2 : 0 < (s.held ++ s.r.data).length := List.length_pos.mpr hne
            simp only [List.length_append] at h1 h2
            omega
          obtain ⟨s', h1, h2, h3⟩ := ih s1 (out ++ [s1.Text]) hI1 hf1
          rw [hfin1] at h3
          rw [hfin1, hmax1, hrest] at h1 h2
          have hText : s1.Text = dropCR (s.held ++ s.r.data) := by
            simp only [Scanner.Text, htok, Option.getD_some]
          rw [hText] at h1
          refine ⟨s', ?_, ?_, h3⟩
          · simp only [readLoop, hS, hText]
            rw [h1]
            simp only [scanLines, hlt, if_true, List.append_assoc, List.singleton_append,
              splitLF]
          · simp only [scanLines, hlt, if_true]
            exact h2
        · simp only [firstStep, hix, hne, if_false, hlt, Scanner.Post] at hpost
          obtain ⟨hb, herr⟩ := hpost
          subst hb
          refine ⟨s1, ?_, ?_, herr.2.2.1⟩
          · simp only [readLoop, hS, scanLines, hlt, if_false, List.append_nil]
          · simp only [scanLines, hlt, if_false]
            exact herr.1

theorem scannerOf_init (rd : bufio.Pipe) (n : Int) :
    (scannerOf rd n).Inv ∧ (scannerOf rd n).maxTokenSize = limit n ∧
      (scannerOf rd n).held = [] ∧ (scannerOf rd n).r = rd := by
  by_cases hn : n > 0
  · have hpos : 0 < n.toNat := by omega
    have hS : scannerOf rd n =
        { r := rd, maxTokenSize := n.toNat, token := none, bufLen := n.toNat, start := 0,
          held := [], err := none } := by
      simp [scannerOf, hn, bufio.NewScanner, bufio.Scanner.Buffer]
    have hl : limit n = n.toNat := by simp [limit, hn]
    rw [hS, hl]
    exact ⟨⟨by simp, le_refl _, hpos, Or.inl rfl, fun h => absurd rfl h⟩, rfl, rfl, rfl⟩
  · have hS : scannerOf rd n = bufio.NewScanner rd := by simp [scannerOf, hn]
    have hl : limit n = bufio.MaxScanTokenSize := by simp [limit, hn]
    rw [hS, hl]
    exact ⟨⟨by simp [bufio.NewScanner], by simp [bufio.NewScanner],
      by simp [bufio.NewScanner, bufio.MaxScanTokenSize],
      Or.inr (by simp [bufio.NewScanner, bufio.MaxScanTokenSize, bufio.maxInt]),
      fun h => absurd rfl h⟩, rfl, rfl, rfl⟩

theorem Scanner_eq (m : Nat) (rd : bufio.Pipe) (n : Int) :
    Scanner m rd n = if 0 < n ∧ m < n.toNat then none else some (scannerOf rd n) := by
  unfold Scanner scannerOf makeslice
  by_cases hn : n > 0
  · by_cases hm : n.toNat ≤ m
    · have : ¬ m < n.toNat := by omega
      simp [hn, hm, this]
    · have : m < n.toNat := by omega
      simp [hn, hm, this]
  · have : ¬ 0 < n := hn
    simp [hn]

theorem readEnd_spec (rd : bufio.Pipe) (n : Int) :
    readScanner (scannerOf rd n) [] = some (readEnd rd n, linesRead rd n) ∧
      (readEnd rd n).Err = readErr rd n ∧
      (readEnd rd n).err =
        some (bufio.scanLines (limit n) rd.final (bufio.splitLF rd.data)).2 ∧
      (readEnd rd n).r.final = rd.final := by
  obtain ⟨hI, hm, hh, hr⟩ := scannerOf_init rd n
  obtain ⟨s', h1, h2, h3⟩ := readLoop_spec _ (scannerOf rd n) [] hI (le_refl _)
  rw [hm, hh, hr] at h1 h2
  rw [hr] at h3
  have hrs : readScanner (scannerOf rd n) [] = some (s', linesRead rd n) := by
    unfold readScanner linesRead
    rw [hh, hr]
    exact h1
  have hre : readEnd rd n = s' := by
    unfold readEnd
    rw [hrs]
  rw [hre]
  refine ⟨hrs, ?_, h2, h3⟩
  unfold bufio.Scanner.Err readErr
  rw [h2]
  by_cases he :
      (bufio.scanLines (limit n) rd.final (bufio.splitLF rd.data)).2 = GoError.EOF
  · simp [he]
  · simp [he]

theorem Run_eq (c : Config) (h : exec.Host) : Command.Run c h = some (runResult c h) := by
  obtain ⟨ho1, ho2, _, _⟩ := readEnd_spec (Command.process c h).stdout c.OutputMaxLineSize.val
  obtain ⟨he1, he2, _, _⟩ := readEnd_spec (Command.process c h).stderr c.OutputMaxLineSize.val
  unfold Command.process Command.cmd at ho1 he1 ho2 he2
  simp only [Command.Run, runResult, Command.joins, Command.process, Command.cmd, Scanner_eq]
  by_cases ha : 0 < c.OutputMaxLineSize.val ∧ h.maxAlloc < c.OutputMaxLineSize.val.toNat
  · simp only [ha, and_self, if_true]
    repeat' split
    all_goals first | rfl | simp_all
  · simp only [ha, if_false, ho1, he1, ho2, he2]
    repeat' split
    all_goals first | rfl | simp_all

end shell

namespace bufio

theorem splitLF_eq_nil (text : Str) : splitLF text = [] ↔ text = [] := by
  cases text with
  | nil => simp [splitLF]
  | cons c cs =>
    by_cases hc : c = '\n'
    · simp [splitLF, hc]
    · simp only [splitLF, hc, if_false]
      cases splitLF cs <;> simp

theorem splitLF_append_lf (line rest : Str) (h : '\n' ∉ line) :
    splitLF (line ++ '\n' :: rest) = line :: splitLF rest := by
  induction line with
  | nil => simp [splitLF]
  | cons c l ih =>
    have hc : ¬ c = '\n' := fun e => h (by simp [e])
    have hl : '\n' ∉ l := fun e => h (by simp [e])
    simp [splitLF, hc, ih hl]

theorem dropCR_of_no_cr (l : Str) (h : l.getLast? ≠ some '\r') : dropCR l = l := by
  simp [dropCR, h]

theorem scanLines_ok (max : Nat) (final : GoError) (ls : List Str)
    (h : ∀ l ∈ ls, l.length < max) : scanLines max final ls = (ls.map dropCR, final) := by
  induction ls with
  | nil => rfl
  | cons l ls ih =>
    have h1 : l.length < max := h l (by simp)
    have h2 : ∀ x ∈ ls, x.length < max := fun x hx => h x (by simp [hx])
    simp [scanLines, h1, ih h2]

theorem map_dropCR_of_no_cr (ls : List Str) (h : ∀ l ∈ ls, l.getLast? ≠ some '\r') :
    ls.map dropCR = ls := by
  induction ls with
  | nil => rfl
  | cons l ls ih =>
    have h1 := dropCR_of_no_cr l (h l (by simp))
    have h2 : ∀ x ∈ ls, x.getLast? ≠ some '\r' := fun x hx => h x (by simp [hx])
    simp [h1, ih h2]

end bufio

namespace strings

theorem Join_cons_cons (c : Char) (l : Str) (ls : List Str) (sep : Str) :
    Join ((c :: l) :: ls) sep = c :: Join (l :: ls) sep := by
  cases ls with
  | nil => rfl
  | cons a rest => simp [Join]

end strings

namespace shell

theorem trimNewline_cons (c : Char) (cs : Str) (h : cs ≠ []) :
    trimNewline (c :: cs) = c :: trimNewline cs := by
  cases cs with
  | nil => exact absurd rfl h
  | cons d ds =>
    simp only [trimNewline, List.getLast?_cons_cons, List.dropLast_cons₂]
    split <;> rfl

theorem Join_splitLF (text : Str) :
    strings.Join (bufio.splitLF text) ['\n'] = trimNewline text := by
  induction text with
  | nil => rfl
  | cons c cs ih =>
    by_cases hcs : cs = []
    · subst hcs
      by_cases hc : c = '\n'
      · subst hc; rfl
      · simp [bufio.splitLF, hc, strings.Join, trimNewline]
    · rw [trimNewline_cons c cs hcs, ← ih]
      have hne : bufio.splitLF cs ≠ [] := fun e => hcs ((bufio.splitLF_eq_nil cs).mp e)
      by_cases hc : c = '\n'
      · subst hc
        cases hs : bufio.splitLF cs with
        | nil => exact absurd hs hne
        | cons l ls => simp [bufio.splitLF, hs, strings.Join]
      · cases hs : bufio.splitLF cs with
        | nil => exact absurd hs hne
        | cons l ls => simp [bufio.splitLF, hc, hs, strings.Join_cons_cons]

theorem read_ok (rd : bufio.Pipe) (n : Int) (hf : rd.final = GoError.EOF)
    (h : ∀ l ∈ bufio.splitLF rd.data, l.length < limit n) :
    linesRead rd n = (bufio.splitLF rd.data).map bufio.dropCR ∧ readErr rd n = none := by
  unfold linesRead readErr
  rw [bufio.scanLines_ok _ _ _ h]
  simp [hf]

theorem read_too_long (rd : bufio.Pipe) (n : Int) (line rest : Str)
    (hd : rd.data = line ++ '\n' :: rest) (hl : '\n' ∉ line) (hlen : limit n ≤ line.length) :
    readErr rd n = some GoError.ErrTooLong := by
  unfold readErr
  rw [hd, bufio.splitLF_append_lf line rest hl]
  have : ¬ line.length < limit n := by omega
  simp [bufio.scanLines, this]

end shell

namespace exec

theorem childRuns_none (ws : List (Bool × Str)) : ∀ (wo we : Nat),
    (childRuns none none ws wo we).2.2 = true := by
  induction ws with
  | nil => intro wo we; rfl
  | cons w rest ih =>
    intro wo we
    obtain ⟨fd, bs⟩ := w
    cases fd
    · simp only [childRuns]; exact ih _ _
    · simp only [childRuns]; exact ih _ _

theorem childRuns_some_none (a : Nat) (ws : List (Bool × Str)) : ∀ (wo we : Nat), wo ≤ a →
    (childRuns (some a) none ws wo we).2.2 = decide (wo + (output true ws).length ≤ a) ∧
      (childRuns (some a) none ws wo we).1 = min (wo + (output true ws).length) a := by
  induction ws with
  | nil =>
    intro wo we h
    simp [childRuns, output, h]
  | cons w rest ih =>
    intro wo we h
    obtain ⟨fd, bs⟩ := w
    cases fd
    · simp only [childRuns, output, Bool.false_eq_true, if_false]
      exact ih wo _ h
    · simp only [childRuns, output, if_true, List.length_append]
      by_cases hb : a < wo + bs.length
      · simp only [hb, if_true]
        have : ¬ wo + (bs.length + (output true rest).length) ≤ a := by omega
        refine ⟨by simp [this], ?_⟩
        rw [Nat.min_eq_right (by omega)]
      · simp only [hb, if_false]
        obtain ⟨h1, h2⟩ := ih (wo + bs.length) we (by omega)
        rw [h1, h2, Nat.add_assoc]
        exact ⟨rfl, rfl⟩

end exec

namespace shell

theorem stopped_readEnd (rd : bufio.Pipe) (n : Int) :
    exec.stopped (readEnd rd n) =
      decide ((bufio.scanLines (limit n) rd.final (bufio.splitLF rd.data)).2 ≠ rd.final) := by
  obtain ⟨_, _, h3, h4⟩ := readEnd_spec rd n
  unfold exec.stopped
  rw [h3, h4]
  simp

theorem joins_of_not_stopped (c : Config) (h : exec.Host)
    (ho : exec.stopped (readEnd (Command.process c h).stdout c.OutputMaxLineSize.val) = false)
    (he : exec.stopped (readEnd (Command.process c h).stderr c.OutputMaxLineSize.val) = false) :
    Command.joins c h = (Command.process c h).closes := by
  simp [Command.joins, exec.joined, exec.allowance, exec.readerEnds, ho, he,
    exec.childRuns_none]

theorem firstStep_too_long (max : Nat) (final : GoError) (data line rest : Str)
    (hd : data = line ++ '\n' :: rest ∨ data = line) (hl : '\n' ∉ line)
    (hpos : 0 < max) (hlen : max ≤ line.length) :
    bufio.firstStep max final data = bufio.Step.stop GoError.ErrTooLong := by
  have hnone := (bufio.IndexByte_eq_none_iff line '\n').mpr hl
  rcases hd with hd | hd
  · have hix : bufio.IndexByte data '\n' = some line.length := by
      rw [hd, bufio.IndexByte_append_of_none _ _ _ hnone]
      simp [bufio.IndexByte]
    have : ¬ line.length < max := by omega
    simp [bufio.firstStep, hix, this]
  · subst hd
    have hne : data ≠ [] := by
      intro e; rw [e] at hlen; simp at hlen; omega
    have : ¬ data.length < max := by omega
    simp [bufio.firstStep, hnone, hne, this]

theorem readEnd_too_long (rd : bufio.Pipe) (n : Int)
    (hfs : bufio.firstStep (limit n) rd.final rd.data = bufio.Step.stop GoError.ErrTooLong) :
    (readEnd rd n).err = some GoError.ErrTooLong ∧
      (readEnd rd n).r.data.length + limit n = rd.data.length ∧
      (readEnd rd n).r.final = rd.final := by
  obtain ⟨hI, hm, hh, hr⟩ := scannerOf_init rd n
  have hneed : (scannerOf rd n).need ≤ (scannerOf rd n).r.data.length + 2 := by
    unfold bufio.Scanner.need; split <;> omega
  obtain ⟨s1, b, hscan, hpost⟩ := bufio.scanLoop_spec _ (scannerOf rd n) hI hneed
  rw [hm, hh, hr, List.nil_append, hfs] at hpost
  simp only [bufio.Scanner.Post, forall_true_left] at hpost
  rw [hh, hr, hm, List.nil_append] at hpost
  obtain ⟨hb, herr, hin, hfin, hlen⟩ := hpost
  subst hb
  have hrs : readScanner (scannerOf rd n) [] = some (s1, []) := by
    simp only [readScanner, readLoop, bufio.Scanner.Scan, hscan]
  have hre : readEnd rd n = s1 := by
    unfold readEnd
    rw [hrs]
  rw [hre]
  refine ⟨herr, ?_, hfin⟩
  have := congrArg List.length hin
  simp only [List.length_append] at this
  omega

theorem joins_too_long (c : Config) (h : exec.Host)
    (hfs : bufio.firstStep (limit c.OutputMaxLineSize.val) (Command.process c h).stdout.final
      (Command.process c h).stdout.data = bufio.Step.stop GoError.ErrTooLong)
    (he : exec.stopped (readEnd (Command.process c h).stderr c.OutputMaxLineSize.val) = false) :
    Command.joins c h =
      (decide ((Command.process c h).stdout.data.length ≤
        limit c.OutputMaxLineSize.val + h.pipeCap) && (Command.process c h).closes) := by
  obtain ⟨h1, h2, h3⟩ := readEnd_too_long _ _ hfs
  have hso : exec.stopped (readEnd (Command.process c h).stdout c.OutputMaxLineSize.val)
      = true := by
    unfold exec.stopped
    rw [h1, h3]
    have := bufio.Pipe.final_ne_tooLong (Command.process c h).stdout
    simp [Ne.symm this]
  have ha : (Command.process c h).stdout.data.length -
      (readEnd (Command.process c h).stdout c.OutputMaxLineSize.val).r.data.length =
      limit c.OutputMaxLineSize.val := by omega
  obtain ⟨r1, r2⟩ := exec.childRuns_some_none
    (limit c.OutputMaxLineSize.val + h.pipeCap) (Command.process c h).writes 0 0
    (Nat.zero_le _)
  have hd : (exec.output true (Command.process c h).writes).length =
      (Command.process c h).stdout.data.length := rfl
  rw [hd, Nat.zero_add] at r1 r2
  simp only [Command.joins, exec.joined, exec.allowance, exec.readerEnds, hso, he, if_true,
    ha, r1, r2, Bool.false_eq_true, if_false]
  have hle : limit c.OutputMaxLineSize.val ≤
      min (Command.process c h).stdout.data.length
        (limit c.OutputMaxLineSize.val + h.pipeCap) := by
    rw [Nat.le_min]; omega
  simp [hle]

theorem read_too_long_last (rd : bufio.Pipe) (n : Int) (hl : '\n' ∉ rd.data)
    (hpos : 0 < limit n) (hlen : limit n ≤ rd.data.length) :
    readErr rd n = some GoError.ErrTooLong := by
  unfold readErr
  have hne : rd.data ≠ [] := by
    intro e; rw [e] at hlen; simp at hlen; omega
  rw [bufio.splitLF_of_none _ ((bufio.IndexByte_eq_none_iff _ _).mpr hl) hne]
  have : ¬ rd.data.length < limit n := by omega
  simp [bufio.scanLines, this]

theorem limit_pos (n : Int) : 0 < limit n := by
  unfold limit
  split
  · omega
  · simp [bufio.MaxScanTokenSize]

theorem not_stopped_of_short (rd : bufio.Pipe) (n : Int)
    (h : ∀ l ∈ bufio.splitLF rd.data, l.length < limit n) :
    exec.stopped (readEnd rd n) = false := by
  rw [stopped_readEnd, bufio.scanLines_ok _ _ _ h]
  simp

theorem Run_too_long (c : Config) (h : exec.Host) (line rest : Str)
    (h1 : exec.StdoutPipe (Command.process c h) = none)
    (h2 : exec.StderrPipe (Command.process c h) = none)
    (ha : ¬ (0 < c.OutputMaxLineSize.val ∧ h.maxAlloc < c.OutputMaxLineSize.val.toNat))
    (h3 : exec.Start (Command.cmd c h) (Command.process c h) = none)
    (hd : (Command.process c h).stdout.data = line ++ '\n' :: rest ∨
      (Command.process c h).stdout.data = line)
    (hl : '\n' ∉ line)
    (hlen : limit c.OutputMaxLineSize.val ≤ line.length)
    (he : ∀ l ∈ bufio.splitLF (Command.process c h).stderr.data,
      l.length < limit c.OutputMaxLineSize.val)
    (hc : (Command.process c h).closes = true) :
    Command.Run c h = some
      (if (Command.process c h).stdout.data.length ≤
          limit c.OutputMaxLineSize.val + h.pipeCap
       then Outcome.returned [] [] (some GoError.ErrTooLong) else Outcome.blocked) := by
  have hpos := limit_pos c.OutputMaxLineSize.val
  have hfs := firstStep_too_long (limit c.OutputMaxLineSize.val)
    (Command.process c h).stdout.final _ line rest hd hl hpos hlen
  have hj := joins_too_long c h hfs (not_stopped_of_short _ _ he)
  have herr : readErr (Command.process c h).stdout c.OutputMaxLineSize.val =
      some GoError.ErrTooLong := by
    rcases hd with hd | hd
    · exact read_too_long _ _ line rest hd hl hlen
    · exact read_too_long_last _ _ (by rw [hd]; exact hl) hpos (by rw [hd]; exact hlen)
  rw [Run_eq]
  simp only [runResult, h1, h2, ha, if_false, h3, hj, hc, Bool.and_true, herr]
  by_cases hfit : (Command.process c h).stdout.data.length ≤
      limit c.OutputMaxLineSize.val + h.pipeCap
  · simp [hfit]
  · simp [hfit]

theorem Run_all_short (c : Config) (h : exec.Host)
    (h1 : exec.StdoutPipe (Command.process c h) = none)
    (h2 : exec.StderrPipe (Command.process c h) = none)
    (ha : ¬ (0 < c.OutputMaxLineSize.val ∧ h.maxAlloc < c.OutputMaxLineSize.val.toNat))
    (h3 : exec.Start (Command.cmd c h) (Command.process c h) = none)
    (hc : (Command.process c h).closes = true)
    (h4 : (Command.process c h).exit = some (ExitStatus.exited 0))
    (h5 : (Command.process c h).stdout.final = GoError.EOF)
    (h6 : (Command.process c h).stderr.final = GoError.EOF)
    (h7 : ∀ l ∈ bufio.splitLF (Command.process c h).stdout.data,
      l.length < limit c.OutputMaxLineSize.val)
    (h8 : ∀ l ∈ bufio.splitLF (Command.process c h).stderr.data,
      l.length < limit c.OutputMaxLineSize.val) :
    Command.Run c h = some (Outcome.returned
      (strings.Join ((bufio.splitLF (Command.process c h).stdout.data).map bufio.dropCR) ['\n'])
      (strings.Join ((bufio.splitLF (Command.process c h).stderr.data).map bufio.dropCR) ['\n'])
      none) := by
  obtain ⟨ho1, ho2⟩ := read_ok _ c.OutputMaxLineSize.val h5 h7
  obtain ⟨he1, he2⟩ := read_ok _ c.OutputMaxLineSize.val h6 h8
  have hj := joins_of_not_stopped c h (not_stopped_of_short _ _ h7)
    (not_stopped_of_short _ _ h8)
  rw [Run_eq]
  simp only [runResult, h1, h2, if_neg ha, h3, hj, hc, if_true, ho1, ho2, he1, he2, exec.Wait,
    h4, Option.map_some']

end shell

/-! ## The claims -/

namespace shell

theorem runResult_inv (c : Config) (h : exec.Host) (so se : Str) (err : Option GoError)
    (ho : runResult c h = Outcome.returned so se err) :
    err = firstFailure (stages c h) ∧
      ((so = [] ∧ se = [] ∧ err ≠ none) ∨
       (err = none ∧ (∀ x ∈ stages c h, x = none) ∧
        (Command.process c h).exit = some (ExitStatus.exited 0) ∧
        so = strings.Join (linesRead (Command.process c h).stdout c.OutputMaxLineSize.val) ['\n'] ∧
        se = strings.Join (linesRead (Command.process c h).stderr c.OutputMaxLineSize.val)
          ['\n'])) := by
  unfold stages
  cases h1 : exec.StdoutPipe (Command.process c h) with
  | some e =>
    simp only [runResult, h1] at ho
    obtain ⟨rfl, rfl, rfl⟩ := Outcome.returned.inj ho
    simp [firstFailure]
  | none =>
  cases h2 : exec.StderrPipe (Command.process c h) with
  | some e =>
    simp only [runResult, h1, h2] at ho
    obtain ⟨rfl, rfl, rfl⟩ := Outcome.returned.inj ho
    simp [firstFailure]
  | none =>
  by_cases ha : 0 < c.OutputMaxLineSize.val ∧ h.maxAlloc < c.OutputMaxLineSize.val.toNat
  · simp only [runResult, h1, h2, if_pos ha] at ho
    exact absurd ho (by simp)
  cases h3 : exec.Start (Command.cmd c h) (Command.process c h) with
  | some e =>
    simp only [runResult, h1, h2, if_neg ha, h3] at ho
    obtain ⟨rfl, rfl, rfl⟩ := Outcome.returned.inj ho
    simp [firstFailure]
  | none =>
  by_cases hj : Command.joins c h = true
  swap
  · simp only [runResult, h1, h2, if_neg ha, h3, if_neg hj] at ho
    exact absurd ho (by simp)
  cases h4 : readErr (Command.process c h).stdout c.OutputMaxLineSize.val with
  | some e =>
    simp only [runResult, h1, h2, if_neg ha, h3, if_pos hj, h4] at ho
    obtain ⟨rfl, rfl, rfl⟩ := Outcome.returned.inj ho
    simp [firstFailure]
  | none =>
  cases h5 : readErr (Command.process c h).stderr c.OutputMaxLineSize.val with
  | some e =>
    simp only [runResult, h1, h2, if_neg ha, h3, if_pos hj, h4, h5] at ho
    obtain ⟨rfl, rfl, rfl⟩ := Outcome.returned.inj ho
    simp [firstFailure]
  | none =>
  cases h6 : (Command.process c h).exit with
  | none =>
    simp only [runResult, h1, h2, if_neg ha, h3, if_pos hj, h4, h5, exec.Wait, h6,
      Option.map_none'] at ho
    exact absurd ho (by simp)
  | some st =>
    by_cases hst : st = ExitStatus.exited 0
    · simp only [runResult, h1, h2, if_neg ha, h3, if_pos hj, h4, h5, exec.Wait, h6,
        Option.map_some', if_pos hst] at ho
      obtain ⟨rfl, rfl, rfl⟩ := Outcome.returned.inj ho
      simp [firstFailure, waitErr, exec.Wait, h6, hst]
    · simp only [runResult, h1, h2, if_neg ha, h3, if_pos hj, h4, h5, exec.Wait, h6,
        Option.map_some', if_neg hst] at ho
      obtain ⟨rfl, rfl, rfl⟩ := Outcome.returned.inj ho
      simp [firstFailure, waitErr, exec.Wait, h6, hst]

/-- C2: `Command.Run` has an outcome, and whenever it returns with a non-nil error both returned
strings are empty. -/
theorem Run_failure_exclusive (c : Config) (h : exec.Host) :
    ∃ o, Command.Run c h = some o ∧
      ∀ so se err, o = Outcome.returned so se err → err ≠ none → so = [] ∧ se = [] := by
  refine ⟨runResult c h, Run_eq c h, ?_⟩
  intro so se err ho hne
  obtain ⟨_, h2 | h2⟩ := runResult_inv c h so se err ho
  · exact ⟨h2.1, h2.2.1⟩
  · exact absurd h2.1 hne

/-- C2, at a process that wrote to both streams and whose stderr holds a line longer than the
limit of 3 bytes: `Run` returns, the error is not nil and both strings are empty. -/
theorem Run_failure_exclusive_witness :
    ∃ so se err, Command.Run (cfgSh "printf 'ab\\ncd\\n'; echo oops >&2" 3) (hostOf (procOf "ab\ncd\n".toList "oops\n".toList
        (ExitStatus.exited 0))) = some (Outcome.returned so se err) ∧
      err ≠ none ∧ so = [] ∧ se = [] := by
  obtain ⟨o, h1, h2⟩ := Run_failure_exclusive (cfgSh "printf 'ab\\ncd\\n'; echo oops >&2" 3)
    (hostOf (procOf "ab\ncd\n".toList "oops\n".toList (ExitStatus.exited 0)))
  have h3 : Command.Run (cfgSh "printf 'ab\\ncd\\n'; echo oops >&2" 3) (hostOf (procOf "ab\ncd\n".toList "oops\n".toList
      (ExitStatus.exited 0))) = some (Outcome.returned [] [] (some GoError.ErrTooLong)) := by
    decide
  exact ⟨[], [], some GoError.ErrTooLong, h3, by simp, rfl, rfl⟩

/-- C3 as stated fails: a process that exits 0 and writes two short lines ending in carriage
return and line feed to stdout gets them back without the carriage returns, which is not the
text written with its trailing newline removed; and with `OutputMaxLineSize = 2^62` the buffer
of the scanner cannot be allocated and `Run` panics instead of returning. -/
theorem Run_success_text_counterexample :
    (∀ l ∈ bufio.splitLF "a\r\nb\r\n".toList, l.length < limit 0) ∧
    Command.Run (cfgSh "printf 'a\\r\\nb\\r\\n'" 0)
        (hostOf (procOf "a\r\nb\r\n".toList [] (ExitStatus.exited 0))) =
      some (Outcome.returned "a\nb".toList [] none) ∧
    Command.Run (cfgSh "printf 'a\\r\\nb\\r\\n'" 0)
        (hostOf (procOf "a\r\nb\r\n".toList [] (ExitStatus.exited 0))) ≠
      some (Outcome.returned (trimNewline "a\r\nb\r\n".toList) (trimNewline []) none) ∧
    Command.Run (cfgEcho 4611686018427387904)
        (hostOf (procOf "1234\n".toList [] (ExitStatus.exited 0))) =
      some Outcome.panicked := by
  decide

/-- C3, amended: when the pipes are created, the scanner buffers can be allocated, the
process starts, gets its write ends closed, both streams end with a regular end of file, the
process exits 0, and every line written (split on line feed) is strictly shorter than the token
limit and does not end in a carriage return, `Command.Run` returns a nil error and, for each
stream, exactly the text written with its trailing line feed removed. -/
theorem Run_success_text (c : Config) (h : exec.Host)
    (h1 : exec.StdoutPipe (Command.process c h) = none)
    (h2 : exec.StderrPipe (Command.process c h) = none)
    (ha : ¬ (0 < c.OutputMaxLineSize.val ∧ h.maxAlloc < c.OutputMaxLineSize.val.toNat))
    (h3 : exec.Start (Command.cmd c h) (Command.process c h) = none)
    (hc : (Command.process c h).closes = true)
    (h4 : (Command.process c h).exit = some (ExitStatus.exited 0))
    (h5 : (Command.process c h).stdout.final = GoError.EOF)
    (h6 : (Command.process c h).stderr.final = GoError.EOF)
    (h7 : ∀ l ∈ bufio.splitLF (Command.process c h).stdout.data,
      l.length < limit c.OutputMaxLineSize.val ∧ l.getLast? ≠ some '\r')
    (h8 : ∀ l ∈ bufio.splitLF (Command.process c h).stderr.data,
      l.length < limit c.OutputMaxLineSize.val ∧ l.getLast? ≠ some '\r') :
    Command.Run c h =
      some (Outcome.returned (trimNewline (Command.process c h).stdout.data)
        (trimNewline (Command.process c h).stderr.data) none) := by
  rw [Run_all_short c h h1 h2 ha h3 hc h4 h5 h6 (fun l hl => (h7 l hl).1)
    (fun l hl => (h8 l hl).1)]
  rw [bufio.map_dropCR_of_no_cr _ (fun l hl => (h7 l hl).2),
    bufio.map_dropCR_of_no_cr _ (fun l hl => (h8 l hl).2), Join_splitLF, Join_splitLF]

/-- C3, at the process of `main.go`: `echo 1234` writes "1234\n" to stdout and nothing to
stderr, and `Run` returns ("1234", "", nil). -/
theorem Run_success_text_witness :
    Command.Run (cfgEcho 0) (hostOf (procOf "1234\n".toList [] (ExitStatus.exited 0))) =
      some (Outcome.returned "1234".toList [] none) :=
  Run_success_text (cfgEcho 0) (hostOf (procOf "1234\n".toList [] (ExitStatus.exited 0)))
    (by decide) (by decide) (by decide) (by decide) (by decide) (by decide) (by decide)
    (by decide) (by decide) (by decide)

/-- C4: with `OutputMaxLineSize = N > 0`, pipes created, buffers allocated and the process
started, a first stdout line of `N` bytes or more (a line of exactly `N` bytes is among
them), terminated by a line feed or ended by the end of the stream, while stderr holds only
shorter lines and the write ends get closed: `Command.Run` returns `bufio.ErrTooLong` with two
empty strings when the bytes written to stdout exceed `N` by no more than the pipe buffer, and
never returns when they exceed it by more. -/
theorem Run_line_of_max_size_rejected (c : Config) (h : exec.Host) (line rest : Str)
    (hn : 0 < c.OutputMaxLineSize.val)
    (h1 : exec.StdoutPipe (Command.process c h) = none)
    (h2 : exec.StderrPipe (Command.process c h) = none)
    (ha : c.OutputMaxLineSize.val.toNat ≤ h.maxAlloc)
    (h3 : exec.Start (Command.cmd c h) (Command.process c h) = none)
    (hd : (Command.process c h).stdout.data = line ++ '\n' :: rest ∨
      (Command.process c h).stdout.data = line)
    (hl : '\n' ∉ line)
    (hlen : c.OutputMaxLineSize.val ≤ (line.length : Int))
    (he : ∀ l ∈ bufio.splitLF (Command.process c h).stderr.data,
      (l.length : Int) < c.OutputMaxLineSize.val)
    (hc : (Command.process c h).closes = true) :
    Command.Run c h = some
      (if (Command.process c h).stdout.data.length ≤ c.OutputMaxLineSize.val.toNat + h.pipeCap
       then Outcome.returned [] [] (some GoError.ErrTooLong) else Outcome.blocked) := by
  have hlim : limit c.OutputMaxLineSize.val = c.OutputMaxLineSize.val.toNat := by
    simp [limit, hn]
  have := Run_too_long c h line rest h1 h2 (by omega) h3 hd hl (by rw [hlim]; omega)
    (by rw [hlim]; intro l hl'; have := he l hl'; omega) hc
  rw [hlim] at this
  exact this

/-- C4, at the failing input: with `OutputMaxLineSize = 4` the process writes the line "abcd"
(4 bytes), with or without a line feed after it, and exits 0; `Run` returns
`bufio.ErrTooLong` in both cases. -/
theorem Run_line_of_max_size_rejected_witness :
    Command.Run (cfgSh "echo abcd" 4)
        (hostOf (procOf "abcd\n".toList [] (ExitStatus.exited 0))) =
      some (Outcome.returned [] [] (some GoError.ErrTooLong)) ∧
    Command.Run (cfgSh "printf abcd" 4)
        (hostOf (procOf "abcd".toList [] (ExitStatus.exited 0))) =
      some (Outcome.returned [] [] (some GoError.ErrTooLong)) :=
  ⟨(Run_line_of_max_size_rejected (cfgSh "echo abcd" 4)
      (hostOf (procOf "abcd\n".toList [] (ExitStatus.exited 0))) "abcd".toList []
      (by decide) (by decide) (by decide) (by decide) (by decide) (Or.inl (by decide))
      (by decide) (by decide) (by decide) (by decide)).trans (by decide),
    (Run_line_of_max_size_rejected (cfgSh "printf abcd" 4)
      (hostOf (procOf "abcd".toList [] (ExitStatus.exited 0))) "abcd".toList []
      (by decide) (by decide) (by decide) (by decide) (by decide) (Or.inr (by decide))
      (by decide) (by decide) (by decide) (by decide)).trans (by decide)⟩

theorem output_swap (fd : Bool) (ws : List (Bool × Str)) :
    exec.output fd (ws.map (fun w => (!w.1, w.2))) = exec.output (!fd) ws := by
  induction ws with
  | nil => rfl
  | cons w rest ih =>
    obtain ⟨g, bs⟩ := w
    cases g <;> cases fd <;> simp [exec.output, ih]

theorem childRuns_swap (aO aE : Option Nat) (ws : List (Bool × Str)) : ∀ (wo we : Nat),
    exec.childRuns aE aO (ws.map (fun w => (!w.1, w.2))) we wo =
      ((exec.childRuns aO aE ws wo we).2.1, (exec.childRuns aO aE ws wo we).1,
        (exec.childRuns aO aE ws wo we).2.2) := by
  induction ws with
  | nil => intro wo we; rfl
  | cons w rest ih =>
    intro wo we
    obtain ⟨g, bs⟩ := w
    cases g
    · cases aE with
      | none => simp only [List.map_cons, Bool.not_false, exec.childRuns]; exact ih _ _
      | some a =>
        simp only [List.map_cons, Bool.not_false, exec.childRuns]
        split
        · rfl
        · exact ih _ _
    · cases aO with
      | none => simp only [List.map_cons, Bool.not_true, exec.childRuns]; exact ih _ _
      | some a =>
        simp only [List.map_cons, Bool.not_true, exec.childRuns]
        split
        · rfl
        · exact ih _ _

theorem swap_stdout (p : exec.Process) : (swapProcess p).stdout = p.stderr := by
  simp [swapProcess, exec.Process.stdout, exec.Process.stderr, output_swap]

theorem swap_stderr (p : exec.Process) : (swapProcess p).stderr = p.stdout := by
  simp [swapProcess, exec.Process.stdout, exec.Process.stderr, output_swap]

theorem joined_swap (h : exec.Host) (p : exec.Process) (so se : bufio.Scanner) :
    exec.joined (swapStreams h) (swapProcess p) se so = exec.joined h p so se := by
  have hw : (swapProcess p).writes = p.writes.map (fun w => (!w.1, w.2)) := rfl
  have hcl : (swapProcess p).closes = p.closes := rfl
  have hcap : (swapStreams h).pipeCap = h.pipeCap := rfl
  simp only [exec.joined, swap_stdout, swap_stderr, hw, hcl, hcap, childRuns_swap]
  rw [Bool.and_comm]

theorem scanLines_err (max : Nat) (final : GoError) (ls : List Str) :
    (bufio.scanLines max final ls).2 = final ∨
      (bufio.scanLines max final ls).2 = GoError.ErrTooLong := by
  induction ls with
  | nil => exact Or.inl rfl
  | cons l rest ih =>
    by_cases hl : l.length < max
    · simpa [bufio.scanLines, hl] using ih
    · exact Or.inr (by simp [bufio.scanLines, hl])

theorem stage_read (rd : bufio.Pipe) (n : Int) (e : GoError) (h : readErr rd n = some e) :
    stageOf e = Stage.read := by
  unfold readErr at h
  split at h
  · exact absurd h (by simp)
  · have he := Option.some.inj h
    rcases scanLines_err (limit n) rd.final (bufio.splitLF rd.data) with h1 | h1
    · rw [← he, h1]
      unfold bufio.Pipe.final
      cases rd.fail <;> rfl
    · rw [← he, h1]; rfl

theorem stage_pipe (f : Option Nat) (e : GoError) (h : f.map GoError.PipeError = some e) :
    stageOf e = Stage.launch := by
  cases f with
  | none => simp at h
  | some n => simp at h; rw [← h]; rfl

theorem stage_start (c : Config) (h : exec.Host) (p : exec.Process) (e : GoError)
    (hs : exec.Start (Command.cmd c h) p = some e) : stageOf e = Stage.launch := by
  have hcmd : (Command.cmd c h).Err = none ∨ ∃ m, (Command.cmd c h).Err =
      some (GoError.ExecError m) := by
    unfold Command.cmd exec.Command
    simp only
    split
    · split
      · exact Or.inl rfl
      · exact Or.inr ⟨_, rfl⟩
      · exact Or.inr ⟨_, rfl⟩
    · exact Or.inl rfl
  unfold exec.Start at hs
  rcases hcmd with hc | ⟨m, hc⟩
  · rw [hc] at hs
    simp only [Option.map_eq_some'] at hs
    obtain ⟨m, _, rfl⟩ := hs
    rfl
  · rw [hc] at hs
    rw [← Option.some.inj hs]; rfl

theorem stage_wait (p : exec.Process) (e : GoError) (h : waitErr p = some e) :
    stageOf e = Stage.exit := by
  unfold waitErr exec.Wait at h
  cases hp : p.exit with
  | none => rw [hp] at h; exact absurd h (by simp)
  | some st =>
    rw [hp] at h
    by_cases hst : st = ExitStatus.exited 0
    · rw [hst] at h; exact absurd h (by simp)
    · simp only [Option.map_some', if_neg hst, Option.getD_some] at h
      rw [← Option.some.inj h]; rfl

theorem classify (a b c d e f : Option GoError) (x : GoError)
    (hx : firstFailure [a, b, c, d, e, f] = some x)
    (sa : ∀ y, a = some y → stageOf y = Stage.launch)
    (sb : ∀ y, b = some y → stageOf y = Stage.launch)
    (sc : ∀ y, c = some y → stageOf y = Stage.launch)
    (sd : ∀ y, d = some y → stageOf y = Stage.read)
    (se : ∀ y, e = some y → stageOf y = Stage.read)
    (sf : ∀ y, f = some y → stageOf y = Stage.exit) :
    some x ∈ [a, b, c, d, e, f] ∧
    ((a ≠ none ∨ b ≠ none ∨ c ≠ none) → stageOf x = Stage.launch) ∧
    (a = none → b = none → c = none → (d ≠ none ∨ e ≠ none) → stageOf x = Stage.read) ∧
    (a = none → b = none → c = none → d = none → e = none → stageOf x = Stage.exit) := by
  cases a <;> cases b <;> cases c <;> cases d <;> cases e <;> cases f <;>
    simp only [firstFailure] at hx <;> cases hx <;> simp_all

theorem runResult_swap (c : Config) (h : exec.Host) (so se : Str) (err : Option GoError)
    (hone : readErr (Command.process c h).stdout c.OutputMaxLineSize.val = none ∨
      readErr (Command.process c h).stderr c.OutputMaxLineSize.val = none)
    (ho : runResult c h = Outcome.returned so se err) :
    ∃ so' se', runResult c (swapStreams h) = Outcome.returned so' se' err := by
  have hsw : Command.process c (swapStreams h) = swapProcess (Command.process c h) := rfl
  have hcmd : Command.cmd c (swapStreams h) = Command.cmd c h := rfl
  have hp1 : exec.StdoutPipe (swapProcess (Command.process c h)) =
      exec.StdoutPipe (Command.process c h) := rfl
  have hp2 : exec.StderrPipe (swapProcess (Command.process c h)) =
      exec.StderrPipe (Command.process c h) := rfl
  have hst : exec.Start (Command.cmd c h) (swapProcess (Command.process c h)) =
      exec.Start (Command.cmd c h) (Command.process c h) := rfl
  have hw : exec.Wait (swapProcess (Command.process c h)) = exec.Wait (Command.process c h) :=
    rfl
  have hm : (swapStreams h).maxAlloc = h.maxAlloc := rfl
  have hj : Command.joins c (swapStreams h) = Command.joins c h := by
    simp only [Command.joins, hsw, swap_stdout, swap_stderr]
    exact joined_swap h _ _ _
  simp only [runResult, hsw, hcmd, hp1, hp2, hst, hw, hm, hj, swap_stdout, swap_stderr]
  simp only [runResult] at ho
  generalize exec.StdoutPipe (Command.process c h) = a at ho ⊢
  generalize exec.StderrPipe (Command.process c h) = b at ho ⊢
  generalize exec.Start (Command.cmd c h) (Command.process c h) = st at ho ⊢
  generalize Command.joins c h = j at ho ⊢
  generalize exec.Wait (Command.process c h) = w at ho ⊢
  generalize readErr (Command.process c h).stdout c.OutputMaxLineSize.val = d at hone ho ⊢
  generalize readErr (Command.process c h).stderr c.OutputMaxLineSize.val = e at hone ho ⊢
  generalize strings.Join (linesRead (Command.process c h).stdout c.OutputMaxLineSize.val)
    ['\n'] = l1 at ho ⊢
  generalize strings.Join (linesRead (Command.process c h).stderr c.OutputMaxLineSize.val)
    ['\n'] = l2 at ho ⊢
  by_cases hq : 0 < c.OutputMaxLineSize.val ∧ h.maxAlloc < c.OutputMaxLineSize.val.toNat
  · simp only [if_pos hq] at ho ⊢
    cases a <;> cases b <;> simp_all
  · simp only [if_neg hq] at ho ⊢
    cases j <;> cases a <;> cases b <;> cases st <;>
      rcases w with _ | _ | _ <;> cases d <;> cases e <;> simp_all

/-- C6 as stated fails: with a limit of 4 bytes, a run whose stdout carries the over-long line
"toolong" and the same run with the two streams exchanged return the same error value
`bufio.ErrTooLong`; nothing in it tells the stream. -/
theorem Run_read_error_untagged_counterexample :
    Command.Run (cfgSh "echo toolong; echo ok >&2" 4)
        (hostOf (procOf "toolong\n".toList "ok\n".toList (ExitStatus.exited 0))) =
      some (Outcome.returned [] [] (some GoError.ErrTooLong)) ∧
    Command.Run (cfgSh "echo toolong; echo ok >&2" 4)
        (swapStreams (hostOf (procOf "toolong\n".toList "ok\n".toList (ExitStatus.exited 0)))) =
      some (Outcome.returned [] [] (some GoError.ErrTooLong)) := by
  decide

/-- C6, amended: whenever `Command.Run` returns an error, it is the error value of the failing
stage as the library produced it, without wrapping; the stage is told by the kind of the
value (a launch error when a pipe or the start failed, else a read error when a reader
failed, else an exit error); but the value carries no tag for the stream: when at most one of
the two readers ends with an error, the run with stdout and stderr exchanged returns the same
error value. -/
theorem Run_error_untagged (c : Config) (h : exec.Host) :
    ∃ o, Command.Run c h = some o ∧
      (∀ so se e, o = Outcome.returned so se (some e) →
        some e ∈ stages c h ∧
        ((exec.StdoutPipe (Command.process c h) ≠ none ∨
            exec.StderrPipe (Command.process c h) ≠ none ∨
            exec.Start (Command.cmd c h) (Command.process c h) ≠ none) →
          stageOf e = Stage.launch) ∧
        (exec.StdoutPipe (Command.process c h) = none →
          exec.StderrPipe (Command.process c h) = none →
          exec.Start (Command.cmd c h) (Command.process c h) = none →
          (readErr (Command.process c h).stdout c.OutputMaxLineSize.val ≠ none ∨
            readErr (Command.process c h).stderr c.OutputMaxLineSize.val ≠ none) →
          stageOf e = Stage.read) ∧
        (exec.StdoutPipe (Command.process c h) = none →
          exec.StderrPipe (Command.process c h) = none →
          exec.Start (Command.cmd c h) (Command.process c h) = none →
          readErr (Command.process c h).stdout c.OutputMaxLineSize.val = none →
          readErr (Command.process c h).stderr c.OutputMaxLineSize.val = none →
          stageOf e = Stage.exit)) ∧
      ((readErr (Command.process c h).stdout c.OutputMaxLineSize.val = none ∨
          readErr (Command.process c h).stderr c.OutputMaxLineSize.val = none) →
        ∀ so se err, o = Outcome.returned so se err →
          ∃ so' se', Command.Run c (swapStreams h) = some (Outcome.returned so' se' err)) := by
  refine ⟨runResult c h, Run_eq c h, ?_, ?_⟩
  · intro so se e ho
    obtain ⟨h1, _⟩ := runResult_inv c h so se (some e) ho
    exact classify _ _ _ _ _ _ e h1.symm
      (fun y hy => stage_pipe _ y hy) (fun y hy => stage_pipe _ y hy)
      (fun y hy => stage_start c h _ y hy) (fun y hy => stage_read _ _ y hy)
      (fun y hy => stage_read _ _ y hy) (fun y hy => stage_wait _ y hy)
  · intro hone so se err ho
    obtain ⟨so', se', hs⟩ := runResult_swap c h so se err hone ho
    exact ⟨so', se', by rw [Run_eq, hs]⟩

/-- C6, at the run whose stderr carries the over-long line "toolong" (limit 4) while stdout is
read without error: the error returned is `bufio.ErrTooLong`, a value of the read stage, and
the run with the streams exchanged returns the same value. -/
theorem Run_error_untagged_witness :
    Command.Run (cfgSh "echo ok; echo toolong >&2" 4)
        (hostOf (procOf "ok\n".toList "toolong\n".toList (ExitStatus.exited 0))) =
      some (Outcome.returned [] [] (some GoError.ErrTooLong)) ∧
    stageOf GoError.ErrTooLong = Stage.read ∧
    ∃ so' se', Command.Run (cfgSh "echo ok; echo toolong >&2" 4) (swapStreams
        (hostOf (procOf "ok\n".toList "toolong\n".toList (ExitStatus.exited 0)))) =
      some (Outcome.returned so' se' (some GoError.ErrTooLong)) := by
  obtain ⟨o, h1, h2, h3⟩ := Run_error_untagged (cfgSh "echo ok; echo toolong >&2" 4)
    (hostOf (procOf "ok\n".toList "toolong\n".toList (ExitStatus.exited 0)))
  have h4 : Command.Run (cfgSh "echo ok; echo toolong >&2" 4)
      (hostOf (procOf "ok\n".toList "toolong\n".toList (ExitStatus.exited 0))) =
      some (Outcome.returned [] [] (some GoError.ErrTooLong)) := by decide
  have h5 : o = Outcome.returned [] [] (some GoError.ErrTooLong) := by
    rw [h4] at h1; exact (Option.some.inj h1).symm
  exact ⟨h4, rfl, h3 (Or.inl (by decide)) _ _ _ h5⟩

theorem builder_eq_Join (args : List Str) : ∀ (dir name : Str),
    args.foldl (fun b a => b ++ ' ' :: a) (dir ++ name) =
      dir ++ strings.Join (name :: args) [' '] := by
  induction args with
  | nil => intro dir name; rfl
  | cons a rest ih =>
    intro dir name
    have h := ih (dir ++ name ++ [' ']) a
    simp only [List.foldl_cons, strings.Join]
    simp only [List.append_assoc, List.singleton_append] at h ⊢
    exact h

theorem String_form (c : Config) (h : exec.Host) :
    ∃ dir, (dir = [] ∨ h.lookPath c.Command = some (dir, false)) ∧
      Command.String c h = dir ++ strings.Join (c.Command :: c.Args) [' '] := by
  unfold Command.String exec.Command exec.Cmd.String
  by_cases hb : exec.baseIsName c.Command = true
  · cases hlp : h.lookPath c.Command with
    | none => exact ⟨[], Or.inl rfl, by simp [hb, hlp]⟩
    | some found =>
      obtain ⟨dir, dot⟩ := found
      cases dot with
      | true => exact ⟨[], Or.inl rfl, by simp [hb, hlp]⟩
      | false =>
        refine ⟨dir, Or.inr rfl, ?_⟩
        simp only [hb, hlp, if_true, ne_eq, not_true_eq_false, if_false, List.tail_cons]
        exact builder_eq_Join c.Args dir c.Command
  · refine ⟨[], Or.inl rfl, ?_⟩
    simp only [hb, if_false, ne_eq, not_true_eq_false, List.tail_cons, Bool.false_eq_true]
    exact builder_eq_Join c.Args [] c.Command

/-- C7: on every host and for every configuration, `Command.String` is the executable (the
configured name, preceded by the directory it was found in when the lookup succeeds) followed
by the arguments in order, separated by single spaces; for `echo` with the argument `1234` it
is "echo 1234" after that directory. -/
theorem String_renders_command (h : exec.Host) :
    (∀ c : Config, ∃ dir, (dir = [] ∨ h.lookPath c.Command = some (dir, false)) ∧
      Command.String c h = dir ++ strings.Join (c.Command :: c.Args) [' ']) ∧
    (∀ (wd : Str) (env : List (Str × Str)) (n : GoInt), ∃ dir,
      Command.String { Command := "echo".toList, Args := ["1234".toList], WorkingDir := wd,
                       Env := env, OutputMaxLineSize := n } h = dir ++ "echo 1234".toList) := by
  refine ⟨fun c => String_form c h, fun wd env n => ?_⟩
  obtain ⟨dir, _, hs⟩ := String_form ⟨"echo".toList, ["1234".toList], wd, env, n⟩ h
  exact ⟨dir, hs⟩

end shell
